import Mathlib

/-!
Verification development for the `market-ml` forecasting core
(`src/Stock/utils/model.py` and `src/Stock/utils/analysis.py`).

The price table is a list of daily bars (date as a day count since
1970-01-01, close and volume as rationals).  Undefined values (pandas
NaN) are `Option.none`; every pandas NaN-propagating operation is
modelled with explicit `Option` plumbing.  The square root used by
rolling standard deviations is an abstract parameter `q : ℚ → ℚ`
(rational arithmetic has no internal square root); the fitted sklearn
regressors are abstract parameters as well, since they are external
library code.
-/

set_option maxRecDepth 8000

namespace MarketML

structure Bar where
  date : Nat
  close : ℚ
  volume : ℚ
  deriving DecidableEq, Inhabited

abbrev Table := List Bar

def closes (tbl : Table) : List ℚ := tbl.map Bar.close

def volumes (tbl : Table) : List ℚ := tbl.map Bar.volume

/-- `close` series access; `none` past the end of the table. -/
def cAt (tbl : Table) (j : Nat) : Option ℚ := (closes tbl)[j]?

/-- `volume` series access. -/
def vAt (tbl : Table) (j : Nat) : Option ℚ := (volumes tbl)[j]?

/-- date (index) access. -/
def dAt (tbl : Table) (j : Nat) : Option Nat := (tbl[j]?).map Bar.date

/-- pointwise binary operation with NaN propagation. -/
def omap2 (f : ℚ → ℚ → ℚ) (a b : Option ℚ) : Option ℚ :=
  a.bind fun x => b.map fun y => f x y

/-- `Series.shift(k)`: value at `j` is the series value at `j - k`. -/
def shiftAt (f : Nat → Option ℚ) (k j : Nat) : Option ℚ :=
  if j < k then none else f (j - k)

/-- the trailing window of width `w` ending at index `j`
(`Series.rolling(w)`), defined only when the window is full and every
entry is defined. -/
def windowO (f : Nat → Option ℚ) (w j : Nat) : Option (List ℚ) :=
  if j + 1 < w then none else (List.range w).mapM fun t => f (j + 1 - w + t)

/-- the `1e-9` guard used by the source. -/
def eps : ℚ := 1 / 1000000000

def listMean (xs : List ℚ) : ℚ := xs.sum / (xs.length : ℚ)

/-- sample variance (divisor `N - 1`), as in `pandas .std()`. -/
def sampleVar (xs : List ℚ) : ℚ :=
  (xs.map fun x => (x - listMean xs) ^ 2).sum / ((xs.length : ℚ) - 1)

/-- population variance (divisor `N`), as in `numpy.std`. -/
def popVar (xs : List ℚ) : ℚ :=
  (xs.map fun x => (x - listMean xs) ^ 2).sum / (xs.length : ℚ)

/-- `Series.rolling(w).mean()` at index `j`. -/
def rollMeanO (f : Nat → Option ℚ) (w j : Nat) : Option ℚ :=
  (windowO f w j).map fun xs => xs.sum / (w : ℚ)

/-- `Series.rolling(w).std()` at index `j` (sample std, via `q`). -/
def rollStdO (q : ℚ → ℚ) (f : Nat → Option ℚ) (w j : Nat) : Option ℚ :=
  (windowO f w j).map fun xs => q (sampleVar xs)

/-- `Series.ewm(span, adjust=False).mean()` at index `j`;
`α = 2 / (span + 1)` is passed directly. -/
def emaAt (a : ℚ) (f : Nat → Option ℚ) : Nat → Option ℚ
  | 0 => f 0
  | j + 1 => omap2 (fun p x => (1 - a) * p + a * x) (emaAt a f j) (f (j + 1))

/-! ### compute_rsi (analysis.py lines 33-38) -/

/-- `close.diff()`. -/
def deltaO (tbl : Table) (j : Nat) : Option ℚ :=
  omap2 (fun x y => x - y) (cAt tbl j) (shiftAt (cAt tbl) 1 j)

/-- `delta.clip(lower=0)`. -/
def gainO (tbl : Table) (j : Nat) : Option ℚ :=
  (deltaO tbl j).map fun d => max d 0

/-- `(-delta.clip(upper=0))`. -/
def lossO (tbl : Table) (j : Nat) : Option ℚ :=
  (deltaO tbl j).map fun d => -(min d 0)

def gainMeanO (tbl : Table) (p j : Nat) : Option ℚ := rollMeanO (gainO tbl) p j

def lossMeanO (tbl : Table) (p j : Nat) : Option ℚ := rollMeanO (lossO tbl) p j

/-- `rs = gain / loss.replace(0, np.nan)`. -/
def rsO (tbl : Table) (p j : Nat) : Option ℚ :=
  (gainMeanO tbl p j).bind fun g =>
    (lossMeanO tbl p j).bind fun l =>
      if l = 0 then none else some (g / l)

/-- `compute_rsi`: `100 - 100 / (1 + rs)`. -/
def rsiO (tbl : Table) (p j : Nat) : Option ℚ :=
  (rsO tbl p j).map fun rs => 100 - 100 / (1 + rs)

/-! ### compute_macd (analysis.py lines 44-55); spans 12 / 26 / 9 -/

def macdLineO (tbl : Table) (j : Nat) : Option ℚ :=
  omap2 (fun x y => x - y) (emaAt (2 / 13) (cAt tbl) j) (emaAt (2 / 27) (cAt tbl) j)

def macdSignalO (tbl : Table) (j : Nat) : Option ℚ :=
  emaAt (2 / 10) (macdLineO tbl) j

def macdHistO (tbl : Table) (j : Nat) : Option ℚ :=
  omap2 (fun x y => x - y) (macdLineO tbl j) (macdSignalO tbl j)

/-! ### calendar fields -/

/-- pandas `dayofweek` (Monday = 0); 1970-01-01 was a Thursday. -/
def dowQ (d : Nat) : ℚ := (((d + 3) % 7 : Nat) : ℚ)

/-- civil month (1..12) of a day count since 1970-01-01
(standard days-to-civil-date conversion). -/
def civilMonth (d : Nat) : Nat :=
  let z := d + 719468
  let doe := z % 146097
  let yoe := (doe - doe / 1460 + doe / 36524 - doe / 146096) / 365
  let doy := doe - (365 * yoe + yoe / 4 - yoe / 100)
  let mp := (5 * doy + 2) / 153
  if mp < 10 then mp + 3 else mp - 9

/-! ### _build_features (model.py lines 56-107): one definition per
feature column, each at row index `i` of the table. -/

def lagF (tbl : Table) (k i : Nat) : Option ℚ := shiftAt (cAt tbl) k i

def rollMeanF (tbl : Table) (w i : Nat) : Option ℚ :=
  shiftAt (fun j => rollMeanO (cAt tbl) w j) 1 i

def rollStdF (q : ℚ → ℚ) (tbl : Table) (w i : Nat) : Option ℚ :=
  shiftAt (fun j => rollStdO q (cAt tbl) w j) 1 i

/-- `(close / close.shift(k) - 1).shift(1)`. -/
def momF (tbl : Table) (k i : Nat) : Option ℚ :=
  shiftAt (fun j => omap2 (fun x y => x / y - 1) (cAt tbl j) (shiftAt (cAt tbl) k j)) 1 i

/-- `volume.rolling(5).mean().shift(1)`. -/
def volMa5F (tbl : Table) (i : Nat) : Option ℚ :=
  shiftAt (fun j => rollMeanO (vAt tbl) 5 j) 1 i

/-- `(volume / (volume.rolling(20).mean() + 1e-9)).shift(1)`. -/
def volRatioF (tbl : Table) (i : Nat) : Option ℚ :=
  shiftAt (fun j => omap2 (fun v m => v / (m + eps)) (vAt tbl j) (rollMeanO (vAt tbl) 20 j)) 1 i

/-- `compute_rsi(close, period=14).shift(1)`. -/
def rsiF (tbl : Table) (i : Nat) : Option ℚ :=
  shiftAt (fun j => rsiO tbl 14 j) 1 i

def macdHistF (tbl : Table) (i : Nat) : Option ℚ := shiftAt (macdHistO tbl) 1 i

def macdLineF (tbl : Table) (i : Nat) : Option ℚ := shiftAt (macdLineO tbl) 1 i

/-- `((close - bb_mid) / (2 * bb_std + 1e-9)).shift(1)`. -/
def bbF (q : ℚ → ℚ) (tbl : Table) (i : Nat) : Option ℚ :=
  shiftAt (fun j =>
    (cAt tbl j).bind fun c =>
      (rollMeanO (cAt tbl) 20 j).bind fun m =>
        (rollStdO q (cAt tbl) 20 j).map fun s => (c - m) / (2 * s + eps)) 1 i

/-- `day_of_week` column: day of week of date `i` itself (unshifted). -/
def dowF (tbl : Table) (i : Nat) : Option ℚ := (dAt tbl i).map dowQ

/-- `month` column: month of date `i` itself (unshifted). -/
def monthF (tbl : Table) (i : Nat) : Option ℚ :=
  (dAt tbl i).map fun d => ((civilMonth d : Nat) : ℚ)

/-- one row of the feature matrix, in source column order. -/
structure FeatureRow where
  lag_1 : ℚ
  lag_2 : ℚ
  lag_3 : ℚ
  lag_5 : ℚ
  lag_10 : ℚ
  roll_mean_5 : ℚ
  roll_mean_10 : ℚ
  roll_mean_20 : ℚ
  roll_std_5 : ℚ
  roll_std_20 : ℚ
  momentum_5 : ℚ
  momentum_10 : ℚ
  momentum_20 : ℚ
  volume_ma5 : ℚ
  volume_ratio : ℚ
  rsi : ℚ
  macd_hist : ℚ
  macd_line : ℚ
  bb_position : ℚ
  day_of_week : ℚ
  month : ℚ
  deriving DecidableEq, Inhabited

/-- the feature row at table index `i`; `none` when any column is NaN
there (such rows are dropped by `feat.dropna`). -/
def featRowAt (q : ℚ → ℚ) (tbl : Table) (i : Nat) : Option FeatureRow :=
  match lagF tbl 1 i, lagF tbl 2 i, lagF tbl 3 i, lagF tbl 5 i, lagF tbl 10 i,
        rollMeanF tbl 5 i, rollMeanF tbl 10 i, rollMeanF tbl 20 i,
        rollStdF q tbl 5 i, rollStdF q tbl 20 i,
        momF tbl 5 i, momF tbl 10 i, momF tbl 20 i,
        volMa5F tbl i, volRatioF tbl i, rsiF tbl i,
        macdHistF tbl i, macdLineF tbl i, bbF q tbl i,
        dowF tbl i, monthF tbl i with
  | some a1, some a2, some a3, some a4, some a5, some a6, some a7, some a8,
    some a9, some a10, some a11, some a12, some a13, some a14, some a15,
    some a16, some a17, some a18, some a19, some a20, some a21 =>
      some (FeatureRow.mk a1 a2 a3 a4 a5 a6 a7 a8 a9 a10 a11 a12 a13 a14 a15
        a16 a17 a18 a19 a20 a21)
  | _, _, _, _, _, _, _, _, _, _, _, _, _, _, _, _, _, _, _, _, _ => none

def featureNames : List String :=
  ["lag_1", "lag_2", "lag_3", "lag_5", "lag_10",
   "roll_mean_5", "roll_mean_10", "roll_mean_20", "roll_std_5", "roll_std_20",
   "momentum_5", "momentum_10", "momentum_20",
   "volume_ma5", "volume_ratio", "rsi", "macd_hist", "macd_line",
   "bb_position", "day_of_week", "month"]

/-- `_build_features`: all rows of the table with defined feature rows,
keeping the row index (pandas keeps the date index through `dropna`). -/
def buildFeatures (q : ℚ → ℚ) (tbl : Table) : List (Nat × FeatureRow) :=
  (List.range tbl.length).filterMap fun i =>
    (featRowAt q tbl i).map fun r => (i, r)

/-- the feature vector in source column order (`feat.columns`). -/
def FeatureRow.toList (r : FeatureRow) : List ℚ :=
  [r.lag_1, r.lag_2, r.lag_3, r.lag_5, r.lag_10, r.roll_mean_5, r.roll_mean_10,
   r.roll_mean_20, r.roll_std_5, r.roll_std_20, r.momentum_5, r.momentum_10,
   r.momentum_20, r.volume_ma5, r.volume_ratio, r.rsi, r.macd_hist, r.macd_line,
   r.bb_position, r.day_of_week, r.month]

/-! ### train_and_predict (model.py lines 113-246) -/

/-- the regressor configurations of model.py lines 136-148. -/
inductive ModelSpec where
  | randomForest (nEstimators maxDepth minSamplesLeaf randomState : Nat)
  | gradientBoosting (nEstimators : Nat) (learningRate : ℚ) (maxDepth randomState : Nat)
  | ridge (alpha : ℚ)
  deriving DecidableEq

/-- model selection (model.py lines 136-148): `Linear Regression` and
`Gradient Boosting` are recognized; anything else gets the default
Random Forest branch. -/
def pickModel (modelName : String) : ModelSpec :=
  if modelName = "Linear Regression" then ModelSpec.ridge 1
  else if modelName = "Gradient Boosting" then
    ModelSpec.gradientBoosting 300 (5 / 100) 4 42
  else ModelSpec.randomForest 300 10 3 42

/-! MinMaxScaler (feature range [0,1]); a zero data range is replaced
by 1 as in sklearn. Fitting requires at least one sample. -/

def listMin : List ℚ → ℚ
  | [] => 0
  | x :: xs => xs.foldl min x

def listMax : List ℚ → ℚ
  | [] => 0
  | x :: xs => xs.foldl max x

def mmScale (mn mx x : ℚ) : ℚ := (x - mn) / (if mx - mn = 0 then 1 else mx - mn)

def mmInv (mn mx w : ℚ) : ℚ := w * (if mx - mn = 0 then 1 else mx - mn) + mn

def colVals (X : List (List ℚ)) (j : Nat) : List ℚ := X.map fun r => r.getD j 0

/-- scale one row with the per-column min/max fitted on `X`. -/
def scaleRowX (X : List (List ℚ)) (row : List ℚ) : List ℚ :=
  (List.range row.length).map fun j =>
    mmScale (listMin (colVals X j)) (listMax (colVals X j)) (row.getD j 0)

/-- `sklearn.model_selection.TimeSeriesSplit(n_splits).split` on `n`
samples: `test_size = n / (n_splits + 1)`, fold `i` trains on all
indices below its validation segment. -/
def tscvFolds (nSplits n : Nat) : List (List Nat × List Nat) :=
  (List.range nSplits).map fun i =>
    let testSize := n / (nSplits + 1)
    let testStart := n - (nSplits - i) * testSize
    (List.range testStart, (List.range testSize).map fun t => testStart + t)

def meanSquaredError (yt yp : List ℚ) : ℚ :=
  (((yt.zip yp).map fun p => (p.1 - p.2) ^ 2).sum) / ((yt.length : ℚ))

def meanAbsoluteError (yt yp : List ℚ) : ℚ :=
  (((yt.zip yp).map fun p => |p.1 - p.2|).sum) / ((yt.length : ℚ))

def r2Score (yt yp : List ℚ) : ℚ :=
  1 - (((yt.zip yp).map fun p => (p.1 - p.2) ^ 2).sum) /
      ((yt.map fun v => (v - listMean yt) ^ 2).sum)

/-- the fitted regressor, abstracted: training data to prediction
function (sklearn is external library code). -/
abbrev Trainer := List (List ℚ) → List ℚ → List ℚ → ℚ

/-- one fold of the cross-validation loop (model.py lines 153-159):
fit on the training indices, predict the validation indices,
inverse-scale, and take the RMSE against the unscaled targets. -/
def foldErr (q : ℚ → ℚ) (F : Trainer) (Xs : List (List ℚ)) (ys yFull : List ℚ)
    (invY : ℚ → ℚ) (fold : List Nat × List Nat) : ℚ :=
  let XsTr := fold.1.map fun a => Xs.getD a []
  let ysTr := fold.1.map fun a => ys.getD a 0
  let valPred := fold.2.map fun b => invY (F XsTr ysTr (Xs.getD b []))
  let valTrue := fold.2.map fun b => yFull.getD b 0
  q (meanSquaredError valTrue valPred)

def cvErrors (q : ℚ → ℚ) (F : Trainer) (Xs : List (List ℚ)) (ys yFull : List ℚ)
    (invY : ℚ → ℚ) : List ℚ :=
  (tscvFolds 5 Xs.length).map (foldErr q F Xs ys yFull invY)

/-- `cv_rmse = np.mean(cv_errors)` (model.py line 160). -/
def cvRmseOf (q : ℚ → ℚ) (F : Trainer) (Xs : List (List ℚ)) (ys yFull : List ℚ)
    (invY : ℚ → ℚ) : ℚ :=
  (cvErrors q F Xs ys yFull invY).sum / ((cvErrors q F Xs ys yFull invY).length : ℚ)

/-! business days: dates are day counts since 1970-01-01 (a Thursday);
Monday..Friday are business days. -/

def isBday (d : Nat) : Prop := (d + 3) % 7 < 5

instance (d : Nat) : Decidable (isBday d) := by unfold isBday; infer_instance

def nextBdayAtOrAfter (d : Nat) : Nat :=
  if (d + 3) % 7 = 5 then d + 2 else if (d + 3) % 7 = 6 then d + 1 else d

/-- `pd.bdate_range(start, periods)`: the first `periods` business days
at or after `start`. -/
def bdateRange : Nat → Nat → List Nat
  | _, 0 => []
  | start, k + 1 =>
    let b := nextBdayAtOrAfter start
    b :: bdateRange (b + 1) k

/-! the iterative rollout (model.py lines 183-224) -/

/-- python `ch[-k]` (for `k ≤ len ch`). -/
def back (xs : List ℚ) (k : Nat) : ℚ := xs.getD (xs.length - k) 0

/-- numpy `ch[-k:]`: the whole list when `k ≥ len ch`. -/
def lastN (xs : List ℚ) (k : Nat) : List ℚ := xs.drop (xs.length - k)

/-- one feature-row update of the rollout loop (model.py lines 205-222),
applied after the just-predicted price has been appended to the running
close history `ch`.  Rolling stds use `np.std` = population std. -/
def nextRow (q : ℚ → ℚ) (r : FeatureRow) (ch : List ℚ) : FeatureRow :=
  { r with
    lag_1 := back ch 2
    lag_2 := back ch 3
    lag_3 := back ch 4
    lag_5 := if 5 < ch.length then back ch 6 else back ch 1
    lag_10 := if 10 < ch.length then back ch 11 else back ch 1
    roll_mean_5 := listMean (lastN ch 5)
    roll_mean_10 := listMean (lastN ch 10)
    roll_mean_20 := listMean (lastN ch 20)
    roll_std_5 := q (popVar (lastN ch 5))
    roll_std_20 := q (popVar (lastN ch 20))
    momentum_5 := if 5 < ch.length then back ch 1 / back ch 6 - 1 else 0
    momentum_10 := if 10 < ch.length then back ch 1 / back ch 11 - 1 else 0
    momentum_20 := if 20 < ch.length then back ch 1 / back ch 21 - 1 else 0 }

/-- the rollout loop: predict from the current row, append the
prediction to the history, rebuild the row, repeat. -/
def rolloutAux (q : ℚ → ℚ) (P : List ℚ → ℚ) (scaleRow : List ℚ → List ℚ)
    (invY : ℚ → ℚ) : Nat → FeatureRow → List ℚ → List ℚ
  | 0, _, _ => []
  | k + 1, r, ch =>
    let pred := invY (P (scaleRow r.toList))
    let ch2 := ch ++ [pred]
    pred :: rolloutAux q P scaleRow invY k (nextRow q r ch2) ch2

/-- the result bundle (model.py lines 39-50); `future_dates` are day
counts, `hist_pred` uses `none` for the NaN padding. -/
structure ModelResult where
  future_dates : List Nat
  future_prices : List ℚ
  hist_pred : List (Option ℚ)
  rmse : ℚ
  mae : ℚ
  r2 : ℚ
  feature_names : List String
  model_name : String
  cv_rmse : ℚ

/-- the ways the pipeline can raise: sklearn `ValueError` from
`MinMaxScaler.fit_transform` on an empty matrix, and sklearn
`ValueError` from `TimeSeriesSplit` when there are at most 5 samples.
(The source has no error handling of its own.) -/
inductive PipeErr where
  | scalerEmpty
  | cvTooFewSamples
  deriving DecidableEq

/-- `y_full = close.loc[feat_df.index].values` (model.py line 127). -/
def keptY (q : ℚ → ℚ) (tbl : Table) : List ℚ :=
  (buildFeatures q tbl).map fun p => (closes tbl).getD p.1 0

/-- `X_full = feat_df.values` (model.py line 128). -/
def keptX (q : ℚ → ℚ) (tbl : Table) : List (List ℚ) :=
  (buildFeatures q tbl).map fun p => p.2.toList

/-- `X_scaled` (model.py line 133). -/
def scaledX (q : ℚ → ℚ) (tbl : Table) : List (List ℚ) :=
  (keptX q tbl).map (scaleRowX (keptX q tbl))

/-- `y_scaled` (model.py line 134). -/
def scaledY (q : ℚ → ℚ) (tbl : Table) : List ℚ :=
  (keptY q tbl).map (mmScale (listMin (keptY q tbl)) (listMax (keptY q tbl)))

/-- `scaler_y.inverse_transform`. -/
def invYOf (q : ℚ → ℚ) (tbl : Table) : ℚ → ℚ :=
  mmInv (listMin (keptY q tbl)) (listMax (keptY q tbl))

/-- `train_and_predict` (model.py lines 113-246). The fitted regressor
is the abstract `F`; everything else follows the source line by line.
`split` models `int(len(y_full) * 0.8)`. -/
def trainAndPredict (q : ℚ → ℚ) (F : Trainer) (tbl : Table)
    (modelName : String) (predDays : Nat) : Except PipeErr ModelResult :=
  if (keptX q tbl).length = 0 then Except.error PipeErr.scalerEmpty else
  if (scaledX q tbl).length < 6 then Except.error PipeErr.cvTooFewSamples else
  let close := closes tbl
  let rows := buildFeatures q tbl
  let yFull := keptY q tbl
  let scX := scaleRowX (keptX q tbl)
  let Xs := scaledX q tbl
  let ys := scaledY q tbl
  let invY := invYOf q tbl
  let _spec := pickModel modelName
  let cvRmse := cvRmseOf q F Xs ys yFull invY
  let P := F Xs ys
  let histAligned := Xs.map fun r => invY (P r)
  let nWarm := close.length - histAligned.length
  let histPred := List.replicate nWarm (none : Option ℚ) ++ histAligned.map some
  let split := yFull.length * 8 / 10
  let testPred := (Xs.drop split).map fun r => invY (P r)
  let testTrue := yFull.drop split
  let rmseV := q (meanSquaredError testTrue testPred)
  let maeV := meanAbsoluteError testTrue testPred
  let r2V := r2Score testTrue testPred
  let lastRow := (rows.getLastD (0, default)).2
  let futPrices := rolloutAux q P scX invY predDays lastRow close
  let lastDate := (tbl.getLastD default).date
  let futDates := bdateRange (lastDate + 1) predDays
  Except.ok (ModelResult.mk futDates futPrices histPred rmseV maeV r2V
    featureNames modelName cvRmse)

/-! ## Option and window helper lemmas -/

lemma omap2_none_right (f : ℚ → ℚ → ℚ) (a : Option ℚ) : omap2 f a none = none := by
  cases a <;> rfl

lemma omap2_some (f : ℚ → ℚ → ℚ) (x y : ℚ) :
    omap2 f (some x) (some y) = some (f x y) := rfl

lemma mapM_eq_some_map {α : Type} (l : List Nat) (f : Nat → Option α) (g : Nat → α)
    (h : ∀ a ∈ l, f a = some (g a)) : l.mapM f = some (l.map g) := by
  induction l with
  | nil => rfl
  | cons a l ih =>
    rw [List.mapM_cons, h a (List.mem_cons_self a l),
      ih fun b hb => h b (List.mem_cons_of_mem a hb)]
    rfl

lemma windowO_eq_some_map {f : Nat → Option ℚ} {w j : Nat} (g : Nat → ℚ)
    (hw : w ≤ j + 1) (h : ∀ t, j + 1 - w ≤ t → t ≤ j → f t = some (g t)) :
    windowO f w j = some (((List.range w).map fun t => j + 1 - w + t).map g) := by
  unfold windowO
  rw [if_neg (by omega), List.map_map]
  exact mapM_eq_some_map _ _ _ fun a ha => by
    have := List.mem_range.mp ha
    exact h _ (by omega) (by omega)

lemma windowO_isSome {f : Nat → Option ℚ} {w j : Nat}
    (hw : w ≤ j + 1) (h : ∀ t, j + 1 - w ≤ t → t ≤ j → (f t).isSome) :
    (windowO f w j).isSome := by
  rw [windowO_eq_some_map (fun t => (f t).getD 0) hw ?_]
  · rfl
  · intro t h1 h2
    obtain ⟨x, hx⟩ := Option.isSome_iff_exists.mp (h t h1 h2)
    simp [hx]

lemma windowO_const {f : Nat → Option ℚ} {c : ℚ} {w j : Nat}
    (hw : w ≤ j + 1) (h : ∀ t, j + 1 - w ≤ t → t ≤ j → f t = some c) :
    windowO f w j = some (List.replicate w c) := by
  rw [windowO_eq_some_map (fun _ => c) hw fun t h1 h2 => h t h1 h2]
  congr 1
  rw [List.map_map]
  exact List.eq_replicate_iff.mpr ⟨by simp, by simp⟩

lemma sum_replicate_q (w : Nat) (c : ℚ) : (List.replicate w c).sum = (w : ℚ) * c := by
  induction w with
  | zero => simp
  | succ w ih => rw [List.replicate_succ, List.sum_cons, ih]; push_cast; ring

lemma listMean_replicate {w : Nat} (hw : w ≠ 0) (c : ℚ) :
    listMean (List.replicate w c) = c := by
  unfold listMean
  rw [List.length_replicate, sum_replicate_q]
  field_simp

lemma sampleVar_replicate (w : Nat) (c : ℚ) : sampleVar (List.replicate w c) = 0 := by
  rcases Nat.eq_zero_or_pos w with rfl | hw
  · simp [sampleVar]
  · unfold sampleVar
    rw [listMean_replicate (by omega), List.map_replicate]
    simp

lemma rollMeanO_const {f : Nat → Option ℚ} {c : ℚ} {w j : Nat}
    (hw0 : w ≠ 0) (hw : w ≤ j + 1) (h : ∀ t, j + 1 - w ≤ t → t ≤ j → f t = some c) :
    rollMeanO f w j = some c := by
  unfold rollMeanO
  rw [windowO_const hw h]
  show some ((List.replicate w c).sum / (w : ℚ)) = some c
  rw [sum_replicate_q, mul_div_cancel_left₀ _ (Nat.cast_ne_zero.mpr hw0)]

lemma emaAt_isSome {a : ℚ} {f : Nat → Option ℚ} {j : Nat}
    (h : ∀ t ≤ j, (f t).isSome) : (emaAt a f j).isSome := by
  induction j with
  | zero => exact h 0 (by omega)
  | succ j ih =>
    have h1 := ih fun t ht => h t (by omega)
    have h2 := h (j + 1) (by omega)
    obtain ⟨p, hp⟩ := Option.isSome_iff_exists.mp h1
    obtain ⟨x, hx⟩ := Option.isSome_iff_exists.mp h2
    rw [emaAt, hp, hx]
    rfl

lemma emaAt_const {a : ℚ} {f : Nat → Option ℚ} {c : ℚ} {j : Nat}
    (h : ∀ t ≤ j, f t = some c) : emaAt a f j = some c := by
  induction j with
  | zero => exact h 0 (by omega)
  | succ j ih =>
    rw [emaAt, ih fun t ht => h t (by omega), h (j + 1) (by omega), omap2_some]
    congr 1
    ring

/-! ## featRowAt manipulation lemmas -/

lemma featRowAt_eq_none_of_rsiF {q : ℚ → ℚ} {tbl : Table} {i : Nat}
    (h : rsiF tbl i = none) : featRowAt q tbl i = none := by
  unfold featRowAt
  rw [h]
  split <;> (try rfl) <;> simp_all

lemma featRowAt_eq_none_of_momF20 {q : ℚ → ℚ} {tbl : Table} {i : Nat}
    (h : momF tbl 20 i = none) : featRowAt q tbl i = none := by
  unfold featRowAt
  rw [h]
  split <;> (try rfl) <;> simp_all

lemma featRowAt_isSome {q : ℚ → ℚ} {tbl : Table} {i : Nat}
    (h1 : (lagF tbl 1 i).isSome) (h2 : (lagF tbl 2 i).isSome)
    (h3 : (lagF tbl 3 i).isSome) (h4 : (lagF tbl 5 i).isSome)
    (h5 : (lagF tbl 10 i).isSome) (h6 : (rollMeanF tbl 5 i).isSome)
    (h7 : (rollMeanF tbl 10 i).isSome) (h8 : (rollMeanF tbl 20 i).isSome)
    (h9 : (rollStdF q tbl 5 i).isSome) (h10 : (rollStdF q tbl 20 i).isSome)
    (h11 : (momF tbl 5 i).isSome) (h12 : (momF tbl 10 i).isSome)
    (h13 : (momF tbl 20 i).isSome) (h14 : (volMa5F tbl i).isSome)
    (h15 : (volRatioF tbl i).isSome) (h16 : (rsiF tbl i).isSome)
    (h17 : (macdHistF tbl i).isSome) (h18 : (macdLineF tbl i).isSome)
    (h19 : (bbF q tbl i).isSome) (h20 : (dowF tbl i).isSome)
    (h21 : (monthF tbl i).isSome) : (featRowAt q tbl i).isSome := by
  obtain ⟨a1, e1⟩ := Option.isSome_iff_exists.mp h1
  obtain ⟨a2, e2⟩ := Option.isSome_iff_exists.mp h2
  obtain ⟨a3, e3⟩ := Option.isSome_iff_exists.mp h3
  obtain ⟨a4, e4⟩ := Option.isSome_iff_exists.mp h4
  obtain ⟨a5, e5⟩ := Option.isSome_iff_exists.mp h5
  obtain ⟨a6, e6⟩ := Option.isSome_iff_exists.mp h6
  obtain ⟨a7, e7⟩ := Option.isSome_iff_exists.mp h7
  obtain ⟨a8, e8⟩ := Option.isSome_iff_exists.mp h8
  obtain ⟨a9, e9⟩ := Option.isSome_iff_exists.mp h9
  obtain ⟨a10, e10⟩ := Option.isSome_iff_exists.mp h10
  obtain ⟨a11, e11⟩ := Option.isSome_iff_exists.mp h11
  obtain ⟨a12, e12⟩ := Option.isSome_iff_exists.mp h12
  obtain ⟨a13, e13⟩ := Option.isSome_iff_exists.mp h13
  obtain ⟨a14, e14⟩ := Option.isSome_iff_exists.mp h14
  obtain ⟨a15, e15⟩ := Option.isSome_iff_exists.mp h15
  obtain ⟨a16, e16⟩ := Option.isSome_iff_exists.mp h16
  obtain ⟨a17, e17⟩ := Option.isSome_iff_exists.mp h17
  obtain ⟨a18, e18⟩ := Option.isSome_iff_exists.mp h18
  obtain ⟨a19, e19⟩ := Option.isSome_iff_exists.mp h19
  obtain ⟨a20, e20⟩ := Option.isSome_iff_exists.mp h20
  obtain ⟨a21, e21⟩ := Option.isSome_iff_exists.mp h21
  unfold featRowAt
  rw [e1, e2, e3, e4, e5, e6, e7, e8, e9, e10, e11, e12, e13, e14, e15, e16,
    e17, e18, e19, e20, e21]
  rfl

/-- congruence: the feature row is determined by the 21 column values. -/
lemma featRowAt_congr {q : ℚ → ℚ} {t1 t2 : Table} {i1 i2 : Nat}
    (h1 : lagF t1 1 i1 = lagF t2 1 i2) (h2 : lagF t1 2 i1 = lagF t2 2 i2)
    (h3 : lagF t1 3 i1 = lagF t2 3 i2) (h4 : lagF t1 5 i1 = lagF t2 5 i2)
    (h5 : lagF t1 10 i1 = lagF t2 10 i2) (h6 : rollMeanF t1 5 i1 = rollMeanF t2 5 i2)
    (h7 : rollMeanF t1 10 i1 = rollMeanF t2 10 i2)
    (h8 : rollMeanF t1 20 i1 = rollMeanF t2 20 i2)
    (h9 : rollStdF q t1 5 i1 = rollStdF q t2 5 i2)
    (h10 : rollStdF q t1 20 i1 = rollStdF q t2 20 i2)
    (h11 : momF t1 5 i1 = momF t2 5 i2) (h12 : momF t1 10 i1 = momF t2 10 i2)
    (h13 : momF t1 20 i1 = momF t2 20 i2) (h14 : volMa5F t1 i1 = volMa5F t2 i2)
    (h15 : volRatioF t1 i1 = volRatioF t2 i2) (h16 : rsiF t1 i1 = rsiF t2 i2)
    (h17 : macdHistF t1 i1 = macdHistF t2 i2)
    (h18 : macdLineF t1 i1 = macdLineF t2 i2) (h19 : bbF q t1 i1 = bbF q t2 i2)
    (h20 : dowF t1 i1 = dowF t2 i2) (h21 : monthF t1 i1 = monthF t2 i2) :
    featRowAt q t1 i1 = featRowAt q t2 i2 := by
  unfold featRowAt
  rw [h1, h2, h3, h4, h5, h6, h7, h8, h9, h10, h11, h12, h13, h14, h15, h16,
    h17, h18, h19, h20, h21]

/-! ## Definedness of the feature columns -/

lemma isSome_map_q {α β : Type} (f : α → β) (o : Option α) :
    (o.map f).isSome = o.isSome := by
  cases o <;> rfl

lemma omap2_isSome {f : ℚ → ℚ → ℚ} {a b : Option ℚ}
    (ha : a.isSome) (hb : b.isSome) : (omap2 f a b).isSome := by
  obtain ⟨x, hx⟩ := Option.isSome_iff_exists.mp ha
  obtain ⟨y, hy⟩ := Option.isSome_iff_exists.mp hb
  rw [hx, hy, omap2_some]
  rfl

lemma shiftAt_of_le {f : Nat → Option ℚ} {k j : Nat} (h : k ≤ j) :
    shiftAt f k j = f (j - k) := by
  unfold shiftAt
  rw [if_neg (by omega)]

lemma shiftAt_of_lt {f : Nat → Option ℚ} {k j : Nat} (h : j < k) :
    shiftAt f k j = none := by
  unfold shiftAt
  rw [if_pos h]

lemma cAt_isSome {tbl : Table} {j : Nat} (h : j < tbl.length) :
    (cAt tbl j).isSome := by
  unfold cAt
  have hlen : j < (closes tbl).length := by simpa [closes] using h
  rw [List.getElem?_eq_getElem hlen]
  rfl

lemma vAt_isSome {tbl : Table} {j : Nat} (h : j < tbl.length) :
    (vAt tbl j).isSome := by
  unfold vAt
  have hlen : j < (volumes tbl).length := by simpa [volumes] using h
  rw [List.getElem?_eq_getElem hlen]
  rfl

lemma dAt_isSome {tbl : Table} {j : Nat} (h : j < tbl.length) :
    (dAt tbl j).isSome := by
  unfold dAt
  rw [isSome_map_q, List.getElem?_eq_getElem h]
  rfl

lemma deltaO_isSome {tbl : Table} {j : Nat} (h1 : 1 ≤ j) (hj : j < tbl.length) :
    (deltaO tbl j).isSome := by
  unfold deltaO
  rw [shiftAt_of_le h1]
  exact omap2_isSome (cAt_isSome hj) (cAt_isSome (by omega))

lemma rollMeanO_isSome {f : Nat → Option ℚ} {w j : Nat} (hw : w ≤ j + 1)
    (h : ∀ t, j + 1 - w ≤ t → t ≤ j → (f t).isSome) :
    (rollMeanO f w j).isSome := by
  unfold rollMeanO
  rw [isSome_map_q]
  exact windowO_isSome hw h

lemma rollStdO_isSome {q : ℚ → ℚ} {f : Nat → Option ℚ} {w j : Nat}
    (hw : w ≤ j + 1) (h : ∀ t, j + 1 - w ≤ t → t ≤ j → (f t).isSome) :
    (rollStdO q f w j).isSome := by
  unfold rollStdO
  rw [isSome_map_q]
  exact windowO_isSome hw h

lemma gainMeanO_isSome {tbl : Table} {j : Nat} (h14 : 14 ≤ j)
    (hj : j < tbl.length) : (gainMeanO tbl 14 j).isSome := by
  unfold gainMeanO
  refine rollMeanO_isSome (by omega) fun t h1 h2 => ?_
  unfold gainO
  rw [isSome_map_q]
  exact deltaO_isSome (by omega) (by omega)

lemma lossMeanO_isSome {tbl : Table} {j : Nat} (h14 : 14 ≤ j)
    (hj : j < tbl.length) : (lossMeanO tbl 14 j).isSome := by
  unfold lossMeanO
  refine rollMeanO_isSome (by omega) fun t h1 h2 => ?_
  unfold lossO
  rw [isSome_map_q]
  exact deltaO_isSome (by omega) (by omega)

lemma macdLineO_isSome {tbl : Table} {j : Nat} (hj : j < tbl.length) :
    (macdLineO tbl j).isSome := by
  unfold macdLineO
  exact omap2_isSome (emaAt_isSome fun t ht => cAt_isSome (by omega))
    (emaAt_isSome fun t ht => cAt_isSome (by omega))

lemma macdHistO_isSome {tbl : Table} {j : Nat} (hj : j < tbl.length) :
    (macdHistO tbl j).isSome := by
  unfold macdHistO macdSignalO
  exact omap2_isSome (macdLineO_isSome hj)
    (emaAt_isSome fun t ht => macdLineO_isSome (by omega))

/-! ## RSI undefinedness on series with no 14-window loss -/

lemma rsO_none_of_loss_zero {tbl : Table} {j : Nat}
    (h : lossMeanO tbl 14 j = some 0) : rsO tbl 14 j = none := by
  unfold rsO
  rw [h]
  cases gainMeanO tbl 14 j <;> simp

lemma rsiF_none_of_loss_zero {tbl : Table} {i : Nat} (h1 : 1 ≤ i)
    (h : lossMeanO tbl 14 (i - 1) = some 0) : rsiF tbl i = none := by
  unfold rsiF
  rw [shiftAt_of_le h1]
  unfold rsiO
  rw [rsO_none_of_loss_zero h]
  rfl

lemma lossMeanO_zero_of_nonneg_delta {tbl : Table} {j : Nat} (h14 : 14 ≤ j)
    (hd : ∀ t, j + 1 - 14 ≤ t → t ≤ j → ∃ d, deltaO tbl t = some d ∧ 0 ≤ d) :
    lossMeanO tbl 14 j = some 0 := by
  unfold lossMeanO
  refine rollMeanO_const (by norm_num) (by omega) fun t ht1 ht2 => ?_
  obtain ⟨d, hdel, hpos⟩ := hd t ht1 ht2
  unfold lossO
  rw [hdel]
  simp only [Option.map_some']
  congr 1
  have : min d 0 = 0 := min_eq_right hpos
  rw [this, neg_zero]

/-- the warm-up rows: below row 21 the `momentum_20` column is NaN, so
the whole feature row is dropped. -/
lemma featRowAt_none_of_lt21 {q : ℚ → ℚ} {tbl : Table} {i : Nat}
    (h : i < 21) : featRowAt q tbl i = none := by
  apply featRowAt_eq_none_of_momF20
  rcases Nat.eq_zero_or_pos i with rfl | hi
  · simp [momF, shiftAt]
  · rw [momF, shiftAt_of_le hi, shiftAt_of_lt (by omega)]
    exact omap2_none_right _ _

/-- on a table whose close series is nondecreasing, every row of the
feature matrix is dropped: the RSI column is NaN everywhere because the
14-period average loss is zero. -/
lemma featRowAt_none_of_nondecr {q : ℚ → ℚ} {tbl : Table} {i : Nat}
    (hmono : ∀ j, 1 ≤ j → j < tbl.length →
      ∃ d, deltaO tbl j = some d ∧ 0 ≤ d) :
    featRowAt q tbl i = none := by
  by_cases hlt : i < 21
  · exact featRowAt_none_of_lt21 hlt
  · by_cases hn : i ≤ tbl.length
    · apply featRowAt_eq_none_of_rsiF
      refine rsiF_none_of_loss_zero (by omega) ?_
      refine lossMeanO_zero_of_nonneg_delta (by omega) fun t ht1 ht2 => ?_
      exact hmono t (by omega) (by omega)
    · apply featRowAt_eq_none_of_momF20
      rw [momF, shiftAt_of_le (by omega), shiftAt_of_le (by omega)]
      have hnone : cAt tbl (i - 1) = none := by
        unfold cAt
        rw [List.getElem?_eq_none]
        simp only [closes, List.length_map]
        omega
      rw [hnone]
      rfl

lemma buildFeatures_eq_nil_of_nondecr {q : ℚ → ℚ} {tbl : Table}
    (hmono : ∀ j, 1 ≤ j → j < tbl.length →
      ∃ d, deltaO tbl j = some d ∧ 0 ≤ d) :
    buildFeatures q tbl = [] := by
  unfold buildFeatures
  rw [List.filterMap_eq_nil_iff]
  intro i hi
  rw [featRowAt_none_of_nondecr hmono]
  rfl

lemma buildFeatures_eq_nil_of_short {q : ℚ → ℚ} {tbl : Table}
    (h : tbl.length ≤ 21) : buildFeatures q tbl = [] := by
  unfold buildFeatures
  rw [List.filterMap_eq_nil_iff]
  intro i hi
  have hi21 : i < 21 := by
    have := List.mem_range.mp hi
    omega
  rw [featRowAt_none_of_lt21 hi21]
  rfl

/-- past the warm-up (row 21 on, row within the table) every feature
column is defined, provided the RSI loss denominator is nonzero. -/
lemma featRowAt_isSome_of_valid {q : ℚ → ℚ} {tbl : Table} {i : Nat}
    (h21 : 21 ≤ i) (hn : i < tbl.length)
    (hloss : lossMeanO tbl 14 (i - 1) ≠ some 0) :
    (featRowAt q tbl i).isSome := by
  have h1 : (1 : Nat) ≤ i := by omega
  apply featRowAt_isSome
  case h1 =>
    unfold lagF
    rw [shiftAt_of_le (by omega)]
    exact cAt_isSome (by omega)
  case h2 =>
    unfold lagF
    rw [shiftAt_of_le (by omega)]
    exact cAt_isSome (by omega)
  case h3 =>
    unfold lagF
    rw [shiftAt_of_le (by omega)]
    exact cAt_isSome (by omega)
  case h4 =>
    unfold lagF
    rw [shiftAt_of_le (by omega)]
    exact cAt_isSome (by omega)
  case h5 =>
    unfold lagF
    rw [shiftAt_of_le (by omega)]
    exact cAt_isSome (by omega)
  case h6 =>
    unfold rollMeanF
    rw [shiftAt_of_le h1]
    exact rollMeanO_isSome (by omega) fun t ht1 ht2 => cAt_isSome (by omega)
  case h7 =>
    unfold rollMeanF
    rw [shiftAt_of_le h1]
    exact rollMeanO_isSome (by omega) fun t ht1 ht2 => cAt_isSome (by omega)
  case h8 =>
    unfold rollMeanF
    rw [shiftAt_of_le h1]
    exact rollMeanO_isSome (by omega) fun t ht1 ht2 => cAt_isSome (by omega)
  case h9 =>
    unfold rollStdF
    rw [shiftAt_of_le h1]
    exact rollStdO_isSome (by omega) fun t ht1 ht2 => cAt_isSome (by omega)
  case h10 =>
    unfold rollStdF
    rw [shiftAt_of_le h1]
    exact rollStdO_isSome (by omega) fun t ht1 ht2 => cAt_isSome (by omega)
  case h11 =>
    unfold momF
    rw [shiftAt_of_le h1, shiftAt_of_le (by omega)]
    exact omap2_isSome (cAt_isSome (by omega)) (cAt_isSome (by omega))
  case h12 =>
    unfold momF
    rw [shiftAt_of_le h1, shiftAt_of_le (by omega)]
    exact omap2_isSome (cAt_isSome (by omega)) (cAt_isSome (by omega))
  case h13 =>
    unfold momF
    rw [shiftAt_of_le h1, shiftAt_of_le (by omega)]
    exact omap2_isSome (cAt_isSome (by omega)) (cAt_isSome (by omega))
  case h14 =>
    unfold volMa5F
    rw [shiftAt_of_le h1]
    exact rollMeanO_isSome (by omega) fun t ht1 ht2 => vAt_isSome (by omega)
  case h15 =>
    unfold volRatioF
    rw [shiftAt_of_le h1]
    exact omap2_isSome (vAt_isSome (by omega))
      (rollMeanO_isSome (by omega) fun t ht1 ht2 => vAt_isSome (by omega))
  case h16 =>
    unfold rsiF
    rw [shiftAt_of_le h1]
    unfold rsiO
    rw [isSome_map_q]
    have hg1 : (gainMeanO tbl 14 (i - 1)).isSome :=
      gainMeanO_isSome (by omega) (by omega)
    have hl1 : (lossMeanO tbl 14 (i - 1)).isSome :=
      lossMeanO_isSome (by omega) (by omega)
    obtain ⟨g, hg⟩ := Option.isSome_iff_exists.mp hg1
    obtain ⟨l, hl⟩ := Option.isSome_iff_exists.mp hl1
    unfold rsO
    rw [hg, hl]
    have hlne : l ≠ 0 := fun hz => hloss (by rw [hl, hz])
    simp [hlne]
  case h17 =>
    unfold macdHistF
    rw [shiftAt_of_le h1]
    exact macdHistO_isSome (by omega)
  case h18 =>
    unfold macdLineF
    rw [shiftAt_of_le h1]
    exact macdLineO_isSome (by omega)
  case h19 =>
    unfold bbF
    rw [shiftAt_of_le h1]
    obtain ⟨c, hc⟩ := Option.isSome_iff_exists.mp
      (cAt_isSome (show i - 1 < tbl.length by omega))
    have hm : (rollMeanO (cAt tbl) 20 (i - 1)).isSome :=
      rollMeanO_isSome (by omega) fun t ht1 ht2 => cAt_isSome (by omega)
    have hs : (rollStdO q (cAt tbl) 20 (i - 1)).isSome :=
      rollStdO_isSome (by omega) fun t ht1 ht2 => cAt_isSome (by omega)
    obtain ⟨m, hm2⟩ := Option.isSome_iff_exists.mp hm
    obtain ⟨s, hs2⟩ := Option.isSome_iff_exists.mp hs
    rw [hc, hm2, hs2]
    rfl
  case h20 =>
    unfold dowF
    rw [isSome_map_q]
    exact dAt_isSome hn
  case h21 =>
    unfold monthF
    rw [isSome_map_q]
    exact dAt_isSome hn

/-! ## Counting the kept rows -/

lemma length_filterMap_eq_countP {α : Type} (l : List Nat) (f : Nat → Option α) :
    (l.filterMap f).length = l.countP fun a => (f a).isSome := by
  induction l with
  | nil => rfl
  | cons a l ih =>
    rw [List.filterMap_cons, List.countP_cons]
    cases h : f a
    · simp [h, ih]
    · simp [h, ih]

lemma countP_range_ge (m n : Nat) (h : m ≤ n) :
    (List.range n).countP (fun i => decide (m ≤ i)) = n - m := by
  induction n with
  | zero => simp
  | succ n ih =>
    rw [List.range_succ, List.countP_append]
    by_cases hm : m ≤ n
    · rw [ih hm]
      have : (List.countP (fun i => decide (m ≤ i)) [n]) = 1 := by
        simp [List.countP_cons, hm]
      rw [this]
      omega
    · have hz : (List.range n).countP (fun i => decide (m ≤ i)) = 0 := by
        rw [List.countP_eq_zero]
        intro a ha
        have := List.mem_range.mp ha
        simp only [decide_eq_true_eq]
        omega
      rw [hz]
      have : (List.countP (fun i => decide (m ≤ i)) [n]) = 0 := by
        simp [List.countP_cons]
        omega
      rw [this]
      omega

lemma length_closes (tbl : Table) : (closes tbl).length = tbl.length := by
  simp [closes]

/-- the row count of the feature matrix: exactly `len - 21` rows remain
when the RSI loss denominator is nonzero at every post-warm-up row. -/
lemma buildFeatures_length {q : ℚ → ℚ} {tbl : Table} (hlen : 21 ≤ tbl.length)
    (hloss : ∀ i, 21 ≤ i → i < tbl.length → lossMeanO tbl 14 (i - 1) ≠ some 0) :
    (buildFeatures q tbl).length = tbl.length - 21 := by
  unfold buildFeatures
  rw [length_filterMap_eq_countP]
  rw [List.countP_congr ?_, countP_range_ge 21 tbl.length hlen]
  intro i hi
  have hin := List.mem_range.mp hi
  rw [isSome_map_q]
  constructor
  · intro hs
    by_contra hge
    simp only [decide_eq_true_eq] at hge
    rw [featRowAt_none_of_lt21 (by omega)] at hs
    exact Bool.noConfusion hs
  · intro hge
    simp only [decide_eq_true_eq] at hge
    exact featRowAt_isSome_of_valid hge hin (hloss i hge hin)

/-! ## Concrete test tables (consecutive business days) -/

/-- the `i`-th business day of a Monday-started business-day calendar
(day 4 = 1970-01-05 is a Monday). -/
def bdayAt (i : Nat) : Nat := 7 * (i / 5) + i % 5 + 4

lemma bdayAt_lt_succ (i : Nat) : bdayAt i < bdayAt (i + 1) := by
  unfold bdayAt
  omega

lemma isBday_bdayAt (i : Nat) : isBday (bdayAt i) := by
  unfold isBday bdayAt
  omega

/-- a table of `n` bars on consecutive business days with closes `f`
and volumes `v`. -/
def mkTable (n : Nat) (f v : Nat → ℚ) : Table :=
  (List.range n).map fun i => Bar.mk (bdayAt i) (f i) (v i)

lemma mkTable_length (n : Nat) (f v : Nat → ℚ) : (mkTable n f v).length = n := by
  simp [mkTable]

lemma cAt_mkTable {n t : Nat} (f v : Nat → ℚ) (h : t < n) :
    cAt (mkTable n f v) t = some (f t) := by
  unfold cAt closes mkTable
  rw [List.map_map, List.getElem?_map, List.getElem?_range h]
  rfl

lemma deltaO_mkTable {n t : Nat} (f v : Nat → ℚ) (h1 : 1 ≤ t) (h : t < n) :
    deltaO (mkTable n f v) t = some (f t - f (t - 1)) := by
  unfold deltaO
  rw [shiftAt_of_le h1, cAt_mkTable f v h, cAt_mkTable f v (by omega), omap2_some]

lemma mkTable_dates_chain (n : Nat) (f v : Nat → ℚ) :
    ((mkTable n f v).map Bar.date).Chain' (fun a b => a < b) := by
  unfold mkTable
  rw [List.map_map]
  apply List.Pairwise.chain'
  rw [List.pairwise_map]
  exact (List.sorted_lt_range n).imp fun hab =>
    strictMono_nat_of_lt_succ bdayAt_lt_succ hab

lemma mkTable_isBday (n : Nat) (f v : Nat → ℚ) :
    ∀ b ∈ mkTable n f v, isBday b.date := by
  intro b hb
  simp only [mkTable, List.mem_map, List.mem_range] at hb
  obtain ⟨i, hi, rfl⟩ := hb
  exact isBday_bdayAt i

def tbl20 : Table := mkTable 20 (fun i => 1000 - (i : ℚ)) fun _ => 7

def tblDec250 : Table := mkTable 250 (fun i => 1000 - (i : ℚ)) fun _ => 7

/-- closes that rise by 1 for 61 days (rows 0..60) and then fall by 1:
positive throughout, non-constant, and RSI is defined from row 62 on
but NaN on rows 21..61. -/
def fMix (i : Nat) : ℚ := if i < 60 then 1000 + (i : ℚ) else 1120 - (i : ℚ)

def tblMix250 : Table := mkTable 250 fMix fun _ => 7

def tblFlat300 : Table := mkTable 300 (fun _ => (50 : ℚ)) fun _ => 7

/-! ## More RSI lemmas (incomplete windows; concrete tables) -/

lemma rollMeanO_none_of_lt {f : Nat → Option ℚ} {w j : Nat} (h : j + 1 < w) :
    rollMeanO f w j = none := by
  unfold rollMeanO windowO
  rw [if_pos h]
  rfl

lemma rsO_none_of_gain_none {tbl : Table} {j : Nat}
    (h : gainMeanO tbl 14 j = none) : rsO tbl 14 j = none := by
  unfold rsO
  rw [h]
  rfl

lemma lossMeanO_tblDec250 {j : Nat} (h14 : 14 ≤ j) (hj : j < 250) :
    lossMeanO tblDec250 14 j = some 1 := by
  unfold lossMeanO
  refine rollMeanO_const (by norm_num) (by omega) fun t ht1 ht2 => ?_
  unfold lossO
  have hd : deltaO tblDec250 t =
      some ((1000 - (t : ℚ)) - (1000 - (((t - 1 : Nat)) : ℚ))) :=
    deltaO_mkTable _ _ (by omega) (by omega)
  rw [hd]
  simp only [Option.map_some']
  congr 1
  have ht : (((t - 1 : Nat)) : ℚ) = (t : ℚ) - 1 := by
    have h1t : (1 : Nat) ≤ t := by omega
    push_cast [h1t]
    ring
  rw [ht]
  have hv : (1000 - (t : ℚ)) - (1000 - ((t : ℚ) - 1)) = -1 := by ring
  rw [hv]
  norm_num

lemma mapM_none_of_mem {α : Type} {l : List Nat} {f : Nat → Option α} {a : Nat}
    (ha : a ∈ l) (h : f a = none) : l.mapM f = none := by
  induction l with
  | nil => cases ha
  | cons b l ih =>
    rw [List.mapM_cons]
    rcases List.mem_cons.mp ha with rfl | ha2
    · rw [h]
      rfl
    · cases hb : f b
      · rfl
      · rw [ih ha2]
        rfl

lemma windowO_none_of_elem {f : Nat → Option ℚ} {w j t : Nat}
    (hw : w ≤ j + 1) (ht1 : j + 1 - w ≤ t) (ht2 : t ≤ j)
    (h : f t = none) : windowO f w j = none := by
  unfold windowO
  rw [if_neg (by omega)]
  refine mapM_none_of_mem
    (List.mem_range.mpr (show t - (j + 1 - w) < w by omega)) ?_
  show f (j + 1 - w + (t - (j + 1 - w))) = none
  rw [show j + 1 - w + (t - (j + 1 - w)) = t from by omega]
  exact h

lemma deltaO_zero_eq_none (tbl : Table) : deltaO tbl 0 = none := by
  unfold deltaO
  rw [shiftAt_of_lt (by omega)]
  exact omap2_none_right _ _

/-- RSI is undefined at every row of a constant-close table: for
`i - 1 ≥ 14` the 14-period average loss is zero, below that the
rolling window itself is undefined. -/
lemma rsiF_none_of_const {tbl : Table} {c : ℚ}
    (hc : ∀ t, t < tbl.length → cAt tbl t = some c)
    {i : Nat} (hn : i ≤ tbl.length) : rsiF tbl i = none := by
  rcases Nat.eq_zero_or_pos i with rfl | h1
  · unfold rsiF
    exact shiftAt_of_lt (by omega)
  by_cases h14 : 15 ≤ i
  · refine rsiF_none_of_loss_zero h1 ?_
    refine lossMeanO_zero_of_nonneg_delta (by omega) fun t ht1 ht2 => ?_
    refine ⟨0, ?_, le_refl 0⟩
    unfold deltaO
    rw [shiftAt_of_le (by omega), hc t (by omega), hc (t - 1) (by omega),
      omap2_some]
    norm_num
  · unfold rsiF
    rw [shiftAt_of_le h1]
    unfold rsiO
    have hg : rsO tbl 14 (i - 1) = none := by
      apply rsO_none_of_gain_none
      by_cases h13 : i - 1 + 1 < 14
      · exact rollMeanO_none_of_lt h13
      · have hwin : windowO (gainO tbl) 14 (i - 1) = none := by
          refine windowO_none_of_elem (by omega)
            (show i - 1 + 1 - 14 ≤ 0 by omega) (by omega) ?_
          unfold gainO
          rw [deltaO_zero_eq_none]
          rfl
        unfold gainMeanO rollMeanO
        rw [hwin]
        rfl
    rw [hg]
    rfl

/-! ## Claim theorems: insufficient data, warm-up alignment, flat series -/

/-- on the non-error path the result fields are the source expressions. -/
lemma trainAndPredict_fields {q : ℚ → ℚ} {F : Trainer} {tbl : Table}
    {name : String} {days : Nat}
    (h0 : ¬((keptX q tbl).length = 0)) (h6 : ¬((scaledX q tbl).length < 6)) :
    ∃ res, trainAndPredict q F tbl name days = Except.ok res ∧
      res.hist_pred =
        List.replicate ((closes tbl).length -
            ((scaledX q tbl).map fun r =>
              invYOf q tbl (F (scaledX q tbl) (scaledY q tbl) r)).length)
          (none : Option ℚ) ++
        ((scaledX q tbl).map fun r =>
          invYOf q tbl (F (scaledX q tbl) (scaledY q tbl) r)).map some ∧
      res.future_dates = bdateRange ((tbl.getLastD default).date + 1) days ∧
      res.cv_rmse =
        cvRmseOf q F (scaledX q tbl) (scaledY q tbl) (keptY q tbl) (invYOf q tbl) := by
  unfold trainAndPredict
  rw [if_neg h0, if_neg h6]
  exact ⟨_, rfl, rfl, rfl, rfl⟩

/-- Claim C2 (code-bug evidence): any table with at most 21 rows leaves
an empty feature matrix, and on the concrete 20-row table the pipeline
fails with the downstream sklearn scaler error (`MinMaxScaler` on an
empty matrix).  The pipeline has no insufficient-data signal at all:
`PipeErr` faithfully enumerates the only raise sites in
`train_and_predict`, and neither is an insufficient-data condition. -/
theorem insufficient_data_behavior :
    (∀ (q : ℚ → ℚ) (tbl : Table), tbl.length ≤ 21 → buildFeatures q tbl = []) ∧
    ∀ (q : ℚ → ℚ) (F : Trainer) (name : String) (days : Nat),
      buildFeatures q tbl20 = [] ∧
      trainAndPredict q F tbl20 name days = Except.error PipeErr.scalerEmpty := by
  have h20 : tbl20.length = 20 := mkTable_length _ _ _
  refine ⟨fun q tbl h => buildFeatures_eq_nil_of_short h, fun q F name days => ?_⟩
  have hb : buildFeatures q tbl20 = [] :=
    buildFeatures_eq_nil_of_short (by omega)
  have hk : (keptX q tbl20).length = 0 := by
    rw [keptX, hb]
    rfl
  exact ⟨hb, by simp [trainAndPredict, hk]⟩

/-- witness for C2: the hypothesis of the general part holds at the
concrete 20-row table. -/
theorem insufficient_data_behavior_witness :
    tbl20.length ≤ 21 ∧ buildFeatures (fun x => x) tbl20 = [] :=
  ⟨by rw [tbl20, mkTable_length]; omega,
   insufficient_data_behavior.1 (fun x => x) tbl20
     (by rw [tbl20, mkTable_length]; omega)⟩

/-- a rolling mean of pointwise nonnegative values with at least one
strictly positive value in the window is strictly positive. -/
lemma rollMeanO_pos {f : Nat → Option ℚ} {w j : Nat} (g : Nat → ℚ)
    (hw : w ≤ j + 1) (hw0 : w ≠ 0)
    (hval : ∀ t, j + 1 - w ≤ t → t ≤ j → f t = some (g t))
    (hnn : ∀ t, j + 1 - w ≤ t → t ≤ j → 0 ≤ g t)
    {t0 : Nat} (ht0a : j + 1 - w ≤ t0) (ht0b : t0 ≤ j) (hpos : 0 < g t0) :
    ∃ v, rollMeanO f w j = some v ∧ 0 < v := by
  rw [rollMeanO, windowO_eq_some_map g hw hval]
  refine ⟨_, rfl, ?_⟩
  have hwq : (0 : ℚ) < (w : ℚ) := by
    exact_mod_cast Nat.pos_of_ne_zero hw0
  refine div_pos ?_ hwq
  have hmem : g t0 ∈ ((List.range w).map fun t => j + 1 - w + t).map g :=
    List.mem_map_of_mem g (List.mem_map.mpr
      ⟨t0 - (j + 1 - w), List.mem_range.mpr (by omega), by omega⟩)
  have hnn2 : ∀ y ∈ ((List.range w).map fun t => j + 1 - w + t).map g, 0 ≤ y := by
    intro y hy
    obtain ⟨t, htmem, rfl⟩ := List.mem_map.mp hy
    obtain ⟨s, hs, rfl⟩ := List.mem_map.mp htmem
    have := List.mem_range.mp hs
    exact hnn _ (by omega) (by omega)
  have hle := List.single_le_sum hnn2 _ hmem
  linarith

lemma deltaO_tblMix250 {t : Nat} (h1 : 1 ≤ t) (ht : t < 250) :
    deltaO tblMix250 t = some (if 61 ≤ t then -1 else 1) := by
  have hd : deltaO tblMix250 t = some (fMix t - fMix (t - 1)) :=
    deltaO_mkTable _ _ h1 ht
  rw [hd]
  congr 1
  rcases Nat.lt_or_ge t 60 with hlt | hge
  · rw [if_neg (by omega)]
    unfold fMix
    rw [if_pos hlt, if_pos (by omega)]
    push_cast [h1]
    ring
  · rcases Nat.eq_or_lt_of_le hge with rfl | hgt
    · rw [if_neg (by omega)]
      unfold fMix
      rw [if_neg (by omega), if_pos (by omega)]
      norm_num
    · rw [if_pos (by omega)]
      unfold fMix
      rw [if_neg (by omega), if_neg (by omega)]
      push_cast [h1]
      ring

lemma lossO_tblMix250 {t : Nat} (h1 : 1 ≤ t) (ht : t < 250) :
    lossO tblMix250 t = some (if 61 ≤ t then 1 else 0) := by
  unfold lossO
  rw [deltaO_tblMix250 h1 ht]
  simp only [Option.map_some']
  congr 1
  by_cases h61 : 61 ≤ t
  · rw [if_pos h61, if_pos h61]
    norm_num
  · rw [if_neg h61, if_neg h61]
    norm_num

/-- on the mixed table a feature row is kept exactly from index 62 on:
below 21 the momentum warm-up is missing, on 21..61 the RSI loss
denominator is zero (no losing day yet), from 62 on everything is
defined. -/
lemma featRowAt_tblMix250_iff {i : Nat} (hi : i < 250) :
    (featRowAt (fun x => x) tblMix250 i).isSome ↔ 62 ≤ i := by
  have hlen : tblMix250.length = 250 := mkTable_length _ _ _
  constructor
  · intro hs
    by_contra hge
    rcases Nat.lt_or_ge i 21 with hlt | h21
    · rw [featRowAt_none_of_lt21 hlt] at hs
      exact Bool.noConfusion hs
    · have hz : lossMeanO tblMix250 14 (i - 1) = some 0 := by
        refine lossMeanO_zero_of_nonneg_delta (by omega) fun t ht1 ht2 => ?_
        refine ⟨if 61 ≤ t then -1 else 1, deltaO_tblMix250 (by omega) (by omega), ?_⟩
        rw [if_neg (by omega)]
        norm_num
      rw [featRowAt_eq_none_of_rsiF (rsiF_none_of_loss_zero (by omega) hz)] at hs
      exact Bool.noConfusion hs
  · intro h62
    refine featRowAt_isSome_of_valid (by omega) (by omega) ?_
    obtain ⟨v, hv, hvpos⟩ := rollMeanO_pos
      (fun t => if 61 ≤ t then 1 else 0) (show 14 ≤ (i - 1) + 1 by omega)
      (by norm_num)
      (fun t ht1 ht2 => lossO_tblMix250 (by omega) (by omega))
      (fun t ht1 ht2 => by
        show (0 : ℚ) ≤ if 61 ≤ t then 1 else 0
        by_cases h61 : 61 ≤ t
        · rw [if_pos h61]
          norm_num
        · rw [if_neg h61])
      (show (i - 1) + 1 - 14 ≤ i - 1 by omega) (le_refl (i - 1))
      (by
        show (0 : ℚ) < if 61 ≤ i - 1 then 1 else 0
        rw [if_pos (by omega)]
        norm_num)
    unfold lossMeanO
    rw [hv]
    intro heq
    have : v = 0 := by injection heq
    linarith

/-- counterexample to Claim C3 as stated: a 250-row valid price table
(strictly increasing business-day dates, positive closes, non-constant,
and with no feature column everywhere-undefined — row 62 is fully
defined) whose feature matrix has 188 rows, not 250 - 21 = 229: rows
21..61 are dropped because the RSI loss denominator is zero there. -/
theorem warmup_alignment_cex :
    250 ≤ tblMix250.length ∧
    (tblMix250.map Bar.date).Chain' (fun a b => a < b) ∧
    (∀ b ∈ tblMix250, isBday b.date) ∧
    (∀ b ∈ tblMix250, 0 < b.close) ∧
    (∀ b ∈ tblMix250, 0 ≤ b.volume) ∧
    (featRowAt (fun x => x) tblMix250 62).isSome ∧
    (buildFeatures (fun x => x) tblMix250).length = 188 ∧
    (buildFeatures (fun x => x) tblMix250).length ≠ tblMix250.length - 21 := by
  have hlen : tblMix250.length = 250 := mkTable_length _ _ _
  have hcount : (buildFeatures (fun x => x) tblMix250).length = 188 := by
    unfold buildFeatures
    rw [length_filterMap_eq_countP, hlen]
    rw [List.countP_congr ?_, countP_range_ge 62 250 (by omega)]
    · intro i hi
      have hin := List.mem_range.mp hi
      rw [isSome_map_q]
      constructor
      · intro hs
        simp only [decide_eq_true_eq]
        exact (featRowAt_tblMix250_iff hin).mp hs
      · intro hs
        simp only [decide_eq_true_eq] at hs
        exact (featRowAt_tblMix250_iff hin).mpr hs
  refine ⟨by omega, mkTable_dates_chain _ _ _, mkTable_isBday _ _ _, ?_, ?_,
    (featRowAt_tblMix250_iff (by omega)).mpr (by omega), hcount, by omega⟩
  · intro b hb
    simp only [tblMix250, mkTable, List.mem_map, List.mem_range] at hb
    obtain ⟨i, hi, rfl⟩ := hb
    show (0 : ℚ) < fMix i
    unfold fMix
    by_cases h60 : i < 60
    · rw [if_pos h60]
      positivity
    · rw [if_neg h60]
      have : (i : ℚ) < 250 := by exact_mod_cast hi
      linarith
  · intro b hb
    simp only [tblMix250, mkTable, List.mem_map, List.mem_range] at hb
    obtain ⟨i, hi, rfl⟩ := hb
    show (0 : ℚ) ≤ 7
    norm_num

/-- Claim C3 (amended): for a valid price table of length `n ≥ 250`
(strictly increasing business-day dates, positive closes, nonnegative
volumes) on which the RSI loss denominator is nonzero at every
post-warm-up row, the feature matrix has exactly `n - 21` fully
defined rows, and the pipeline succeeds with an in-sample prediction
array of length `n` whose first 21 entries are NaN and whose remaining
entries are all numeric. -/
theorem warmup_alignment (q : ℚ → ℚ) (F : Trainer) (tbl : Table)
    (name : String) (days : Nat) (hlen : 250 ≤ tbl.length)
    (hdates : (tbl.map Bar.date).Chain' (fun a b => a < b))
    (hbday : ∀ b ∈ tbl, isBday b.date)
    (hpos : ∀ b ∈ tbl, 0 < b.close) (hvol : ∀ b ∈ tbl, 0 ≤ b.volume)
    (hloss : ∀ i, 21 ≤ i → i < tbl.length → lossMeanO tbl 14 (i - 1) ≠ some 0) :
    (buildFeatures q tbl).length = tbl.length - 21 ∧
    ∃ res, trainAndPredict q F tbl name days = Except.ok res ∧
      res.hist_pred.length = tbl.length ∧
      res.hist_pred.take 21 = List.replicate 21 (none : Option ℚ) ∧
      ∀ o ∈ res.hist_pred.drop 21, o.isSome := by
  have hbf : (buildFeatures q tbl).length = tbl.length - 21 :=
    buildFeatures_length (by omega) hloss
  refine ⟨hbf, ?_⟩
  have hkX : (keptX q tbl).length = tbl.length - 21 := by
    rw [keptX, List.length_map, hbf]
  have hsX : (scaledX q tbl).length = tbl.length - 21 := by
    rw [scaledX, List.length_map, hkX]
  have h0 : ¬((keptX q tbl).length = 0) := by omega
  have h6 : ¬((scaledX q tbl).length < 6) := by omega
  have hlenmap : ((scaledX q tbl).map fun r =>
      invYOf q tbl (F (scaledX q tbl) (scaledY q tbl) r)).length =
      tbl.length - 21 := by
    rw [List.length_map, hsX]
  have hwarm : (closes tbl).length -
      ((scaledX q tbl).map fun r =>
        invYOf q tbl (F (scaledX q tbl) (scaledY q tbl) r)).length = 21 := by
    rw [length_closes, hlenmap]
    omega
  obtain ⟨res, hres, hhist, -, -⟩ := trainAndPredict_fields h0 h6
  rw [hwarm] at hhist
  refine ⟨res, hres, ?_, ?_, ?_⟩
  · rw [hhist, List.length_append, List.length_replicate, List.length_map,
      hlenmap]
    omega
  · rw [hhist]
    exact List.take_left' (by rw [List.length_replicate])
  · intro o ho
    rw [hhist, List.drop_left' (show (List.replicate 21 (none : Option ℚ)).length
      = 21 by rw [List.length_replicate])] at ho
    simp only [List.mem_map] at ho
    obtain ⟨x, _, rfl⟩ := ho
    rfl

/-- witness for C3 at the concrete strictly decreasing 250-row table:
every loss mean is 1, so every hypothesis of `warmup_alignment` holds. -/
theorem warmup_alignment_witness :
    (buildFeatures (fun x => x) tblDec250).length = tblDec250.length - 21 ∧
    ∃ res, trainAndPredict (fun x => x) (fun _ _ _ => 0) tblDec250
        "Random Forest" 30 = Except.ok res ∧
      res.hist_pred.length = tblDec250.length ∧
      res.hist_pred.take 21 = List.replicate 21 (none : Option ℚ) ∧
      ∀ o ∈ res.hist_pred.drop 21, o.isSome := by
  have hlen : tblDec250.length = 250 := mkTable_length _ _ _
  refine warmup_alignment _ _ _ _ _ (by omega) (mkTable_dates_chain _ _ _)
    (mkTable_isBday _ _ _) ?_ ?_ ?_
  · intro b hb
    simp only [tblDec250, mkTable, List.mem_map, List.mem_range] at hb
    obtain ⟨i, hi, rfl⟩ := hb
    show (0 : ℚ) < 1000 - (i : ℚ)
    have : (i : ℚ) < 250 := by exact_mod_cast hi
    linarith
  · intro b hb
    simp only [tblDec250, mkTable, List.mem_map, List.mem_range] at hb
    obtain ⟨i, hi, rfl⟩ := hb
    show (0 : ℚ) ≤ 7
    norm_num
  · intro i h21 hin
    rw [hlen] at hin
    rw [lossMeanO_tblDec250 (by omega) (by omega)]
    intro heq
    have : (1 : ℚ) = 0 := by injection heq
    norm_num at this

/-- counterexample to Claim C9 as stated: on the constant-50 table the
RSI column is indeed NaN (here at row 50), but because of that every
row is dropped and the pipeline raises the downstream empty-matrix
scaler error instead of producing any (flat or otherwise) forecast. -/
theorem flat_series_cex :
    rsiF tblFlat300 50 = none ∧
    buildFeatures (fun x => x) tblFlat300 = [] ∧
    trainAndPredict (fun x => x) (fun _ _ _ => 0) tblFlat300 "Random Forest" 30 =
      Except.error PipeErr.scalerEmpty := by
  have hlen : tblFlat300.length = 300 := mkTable_length _ _ _
  have hc : ∀ t, t < tblFlat300.length → cAt tblFlat300 t = some 50 := by
    intro t ht
    rw [hlen] at ht
    exact cAt_mkTable _ _ ht
  have hmono : ∀ j, 1 ≤ j → j < tblFlat300.length →
      ∃ d, deltaO tblFlat300 j = some d ∧ 0 ≤ d := by
    intro j h1 hj
    refine ⟨0, ?_, le_refl 0⟩
    unfold deltaO
    rw [shiftAt_of_le h1, hc j hj, hc (j - 1) (by omega), omap2_some]
    norm_num
  have hb : buildFeatures (fun x => x) tblFlat300 = [] :=
    buildFeatures_eq_nil_of_nondecr hmono
  have hk : (keptX (fun x => x) tblFlat300).length = 0 := by
    rw [keptX, hb]
    rfl
  exact ⟨rsiF_none_of_const hc (by omega), hb, by simp [trainAndPredict, hk]⟩

/-- Claim C9 (amended): on any constant-close table the RSI feature is
undefined at every row, so every feature row is dropped and the
pipeline fails on the empty feature matrix (the downstream scaler
raise) — it does not produce a flat forecast. -/
theorem flat_series_behavior (q : ℚ → ℚ) (F : Trainer) (tbl : Table) (c : ℚ)
    (hc : ∀ t, t < tbl.length → cAt tbl t = some c) (name : String) (days : Nat) :
    (∀ i, i ≤ tbl.length → rsiF tbl i = none) ∧
    buildFeatures q tbl = [] ∧
    trainAndPredict q F tbl name days = Except.error PipeErr.scalerEmpty := by
  have hmono : ∀ j, 1 ≤ j → j < tbl.length →
      ∃ d, deltaO tbl j = some d ∧ 0 ≤ d := by
    intro j h1 hj
    refine ⟨0, ?_, le_refl 0⟩
    unfold deltaO
    rw [shiftAt_of_le h1, hc j hj, hc (j - 1) (by omega), omap2_some]
    norm_num
  have hb : buildFeatures q tbl = [] := buildFeatures_eq_nil_of_nondecr hmono
  have hk : (keptX q tbl).length = 0 := by
    rw [keptX, hb]
    rfl
  exact ⟨fun i hi => rsiF_none_of_const hc hi, hb, by simp [trainAndPredict, hk]⟩

/-- witness for C9 at the concrete constant-50, 300-row table. -/
theorem flat_series_behavior_witness :
    (∀ i, i ≤ tblFlat300.length → rsiF tblFlat300 i = none) ∧
    buildFeatures (fun x => x) tblFlat300 = [] ∧
    trainAndPredict (fun x => x) (fun _ _ _ => 0) tblFlat300 "Random Forest" 30 =
      Except.error PipeErr.scalerEmpty :=
  flat_series_behavior (fun x => x) (fun _ _ _ => 0) tblFlat300 50
    (fun t ht => cAt_mkTable _ _ (by
      rw [show tblFlat300.length = 300 from mkTable_length _ _ _] at ht
      exact ht))
    "Random Forest" 30

/-! ## Variance facts for the std mismatch -/

lemma lastN_length {xs : List ℚ} {k : Nat} (h : k ≤ xs.length) :
    (lastN xs k).length = k := by
  unfold lastN
  rw [List.length_drop]
  omega

lemma sum_nonneg_q {l : List ℚ} (h : ∀ y ∈ l, 0 ≤ y) : 0 ≤ l.sum := by
  induction l with
  | nil => simp
  | cons a l ih =>
    rw [List.sum_cons]
    have h1 := h a (List.mem_cons_self a l)
    have h2 := ih fun y hy => h y (List.mem_cons_of_mem a hy)
    linarith

lemma devSum_nonneg (xs : List ℚ) :
    0 ≤ (xs.map fun x => (x - listMean xs) ^ 2).sum := by
  refine sum_nonneg_q fun y hy => ?_
  obtain ⟨z, _, rfl⟩ := List.mem_map.mp hy
  positivity

lemma popVar_nonneg (xs : List ℚ) : 0 ≤ popVar xs :=
  div_nonneg (devSum_nonneg xs) (by positivity)

lemma sampleVar_nonneg {xs : List ℚ} (h2 : 2 ≤ xs.length) : 0 ≤ sampleVar xs := by
  refine div_nonneg (devSum_nonneg xs) ?_
  have : (2 : ℚ) ≤ (xs.length : ℚ) := by exact_mod_cast h2
  linarith

lemma exists_ne_mean {xs : List ℚ} (h : ¬ ∀ a ∈ xs, ∀ b ∈ xs, a = b) :
    ∃ x ∈ xs, x ≠ listMean xs := by
  by_contra hc
  push_neg at hc
  exact h fun a ha b hb => by rw [hc a ha, hc b hb]

lemma devSum_pos {xs : List ℚ} (h : ¬ ∀ a ∈ xs, ∀ b ∈ xs, a = b) :
    0 < (xs.map fun x => (x - listMean xs) ^ 2).sum := by
  obtain ⟨x, hx, hne⟩ := exists_ne_mean h
  have h1 : (0 : ℚ) < (x - listMean xs) ^ 2 := by
    rw [sq]
    exact mul_self_pos.mpr (sub_ne_zero.mpr hne)
  have h2 : (x - listMean xs) ^ 2 ≤ (xs.map fun y => (y - listMean xs) ^ 2).sum :=
    List.single_le_sum
      (fun y hy => by
        obtain ⟨z, _, rfl⟩ := List.mem_map.mp hy
        positivity)
      _ (List.mem_map_of_mem _ hx)
  linarith

/-- sample variance (divisor `N - 1`) and population variance
(divisor `N`) disagree on every non-constant window. -/
lemma sampleVar_ne_popVar {xs : List ℚ} (hlen : 2 ≤ xs.length)
    (h : ¬ ∀ a ∈ xs, ∀ b ∈ xs, a = b) : sampleVar xs ≠ popVar xs := by
  unfold sampleVar popVar
  intro heq
  have hn2 : (2 : ℚ) ≤ (xs.length : ℚ) := by exact_mod_cast hlen
  have hn0 : ((xs.length : ℚ)) ≠ 0 := by linarith
  have hn1 : ((xs.length : ℚ) - 1) ≠ 0 := by linarith
  rw [div_eq_div_iff hn1 hn0] at heq
  have hS := devSum_pos h
  nlinarith [heq, hS]

/-- the trailing window of the close series, as the feature engine's
rolling window ending at the last row. -/
lemma windowO_cAt_eq_lastN (tbl : Table) (w : Nat) (hw : 1 ≤ w)
    (hlen : w ≤ tbl.length) :
    windowO (cAt tbl) w (tbl.length - 1) = some (lastN (closes tbl) w) := by
  have hcl : (closes tbl).length = tbl.length := length_closes tbl
  rw [windowO_eq_some_map (fun t => (closes tbl).getD t 0) (by omega) ?_]
  · congr 1
    rw [List.map_map]
    apply List.ext_getElem?
    intro m
    rw [List.getElem?_map]
    unfold lastN
    rw [List.getElem?_drop]
    by_cases hm : m < w
    · rw [List.getElem?_range hm]
      have hidx : (closes tbl).length - w + m < (closes tbl).length := by omega
      rw [List.getElem?_eq_getElem hidx]
      simp only [Option.map_some', Function.comp]
      congr 1
      rw [List.getD_eq_getElem?_getD, List.getElem?_eq_getElem
        (show tbl.length - 1 + 1 - w + m < (closes tbl).length by omega)]
      show (closes tbl)[tbl.length - 1 + 1 - w + m] = (closes tbl)[(closes tbl).length - w + m]
      congr 1
      omega
    · rw [List.getElem?_eq_none (by rw [List.length_range]; omega),
        List.getElem?_eq_none (by omega)]
      rfl
  · intro t h1 h2
    show cAt tbl t = some ((closes tbl).getD t 0)
    rw [List.getD_eq_getElem?_getD]
    unfold cAt
    rw [List.getElem?_eq_getElem (show t < (closes tbl).length by omega)]
    rfl

/-! ## Claim theorems: rollout frame, degenerate denominators, std mismatch -/

/-- Claim C4 (amended): one step of the rollout reconstructs every lag,
rolling-mean, rolling-std and momentum slot from the running close
history (which ends with the just-predicted price), and leaves every
other slot — the volume, RSI, MACD, Bollinger AND the two calendar
slots — unchanged (in particular the calendar slots do NOT advance
with the synthetic future date); and the rollout loop steps with
exactly this update. -/
theorem rollout_frame (q : ℚ → ℚ) (r : FeatureRow) (ch : List ℚ) :
    (nextRow q r ch).lag_1 = back ch 2 ∧
    (nextRow q r ch).lag_2 = back ch 3 ∧
    (nextRow q r ch).lag_3 = back ch 4 ∧
    (nextRow q r ch).lag_5 = (if 5 < ch.length then back ch 6 else back ch 1) ∧
    (nextRow q r ch).lag_10 = (if 10 < ch.length then back ch 11 else back ch 1) ∧
    (nextRow q r ch).roll_mean_5 = listMean (lastN ch 5) ∧
    (nextRow q r ch).roll_mean_10 = listMean (lastN ch 10) ∧
    (nextRow q r ch).roll_mean_20 = listMean (lastN ch 20) ∧
    (nextRow q r ch).roll_std_5 = q (popVar (lastN ch 5)) ∧
    (nextRow q r ch).roll_std_20 = q (popVar (lastN ch 20)) ∧
    (nextRow q r ch).momentum_5 =
      (if 5 < ch.length then back ch 1 / back ch 6 - 1 else 0) ∧
    (nextRow q r ch).momentum_10 =
      (if 10 < ch.length then back ch 1 / back ch 11 - 1 else 0) ∧
    (nextRow q r ch).momentum_20 =
      (if 20 < ch.length then back ch 1 / back ch 21 - 1 else 0) ∧
    (nextRow q r ch).volume_ma5 = r.volume_ma5 ∧
    (nextRow q r ch).volume_ratio = r.volume_ratio ∧
    (nextRow q r ch).rsi = r.rsi ∧
    (nextRow q r ch).macd_hist = r.macd_hist ∧
    (nextRow q r ch).macd_line = r.macd_line ∧
    (nextRow q r ch).bb_position = r.bb_position ∧
    (nextRow q r ch).day_of_week = r.day_of_week ∧
    (nextRow q r ch).month = r.month ∧
    ∀ (P : List ℚ → ℚ) (sc : List ℚ → List ℚ) (invY : ℚ → ℚ) (k : Nat),
      rolloutAux q P sc invY (k + 1) r ch =
        invY (P (sc r.toList)) ::
          rolloutAux q P sc invY k
            (nextRow q r (ch ++ [invY (P (sc r.toList))]))
            (ch ++ [invY (P (sc r.toList))]) :=
  ⟨rfl, rfl, rfl, rfl, rfl, rfl, rfl, rfl, rfl, rfl, rfl, rfl, rfl, rfl, rfl,
   rfl, rfl, rfl, rfl, rfl, rfl, fun P sc invY k => rfl⟩

/-- a feature row whose calendar slots are those of Friday 1970-01-02
(day index 1, `day_of_week = 4`, January). -/
def rowFri : FeatureRow := { (default : FeatureRow) with day_of_week := 4, month := 1 }

def chC4 : List ℚ := [1, 2, 3, 4, 5]

/-- counterexample to Claim C4 as stated: after one rollout step from a
Friday (day 1), the synthetic next future date is the following Monday
(day 4, `day_of_week = 0`), yet the `day_of_week` slot of the updated
row still holds Friday's value 4 — the calendar slots do not advance. -/
theorem rollout_calendar_cex :
    (nextRow (fun x => x) rowFri chC4).day_of_week = 4 ∧
    (nextRow (fun x => x) rowFri chC4).month = 1 ∧
    nextBdayAtOrAfter (1 + 1) = 4 ∧
    dowQ 4 = 0 ∧
    (nextRow (fun x => x) rowFri chC4).day_of_week ≠
      dowQ (nextBdayAtOrAfter (1 + 1)) := by
  have h1 : (nextRow (fun x => x) rowFri chC4).day_of_week = 4 := rfl
  have h2 : nextBdayAtOrAfter (1 + 1) = 4 := by norm_num [nextBdayAtOrAfter]
  have h3 : dowQ 4 = 0 := by norm_num [dowQ]
  refine ⟨h1, rfl, h2, h3, ?_⟩
  rw [h1, h2, h3]
  norm_num

/-- Claim C8 (amended): past the warm-up, the Bollinger-position and
volume-ratio columns are always defined — their denominators are
guarded by `+ 1e-9`, so a zero rolling std or zero 20-day volume mean
yields a finite substituted value, not NaN and not a raise — while a
zero RSI loss denominator does make the RSI column NaN (and the row is
then dropped). -/
theorem degenerate_denominators (q : ℚ → ℚ) (tbl : Table) (i : Nat)
    (h20 : 20 ≤ i) (hn : i ≤ tbl.length) :
    (bbF q tbl i).isSome ∧ (volRatioF tbl i).isSome ∧
    (lossMeanO tbl 14 (i - 1) = some 0 → rsiF tbl i = none) := by
  have h1 : (1 : Nat) ≤ i := by omega
  refine ⟨?_, ?_, fun hl => rsiF_none_of_loss_zero h1 hl⟩
  · unfold bbF
    rw [shiftAt_of_le h1]
    obtain ⟨c, hc⟩ := Option.isSome_iff_exists.mp
      (cAt_isSome (show i - 1 < tbl.length by omega))
    have hm : (rollMeanO (cAt tbl) 20 (i - 1)).isSome :=
      rollMeanO_isSome (by omega) fun t ht1 ht2 => cAt_isSome (by omega)
    have hs : (rollStdO q (cAt tbl) 20 (i - 1)).isSome :=
      rollStdO_isSome (by omega) fun t ht1 ht2 => cAt_isSome (by omega)
    obtain ⟨m, hm2⟩ := Option.isSome_iff_exists.mp hm
    obtain ⟨s, hs2⟩ := Option.isSome_iff_exists.mp hs
    rw [hc, hm2, hs2]
    rfl
  · unfold volRatioF
    rw [shiftAt_of_le h1]
    exact omap2_isSome (vAt_isSome (by omega))
      (rollMeanO_isSome (by omega) fun t ht1 ht2 => vAt_isSome (by omega))

lemma vAt_mkTable {n t : Nat} (f v : Nat → ℚ) (h : t < n) :
    vAt (mkTable n f v) t = some (v t) := by
  unfold vAt volumes mkTable
  rw [List.map_map, List.getElem?_map, List.getElem?_range h]
  rfl

/-- witness for C8 at the concrete constant-50 table, row 21: a zero
RSI loss denominator really occurs there and the RSI column is NaN,
while the Bollinger and volume-ratio columns stay defined. -/
theorem degenerate_denominators_witness :
    (bbF (fun x => x) tblFlat300 21).isSome ∧
    (volRatioF tblFlat300 21).isSome ∧
    rsiF tblFlat300 21 = none := by
  have hlen : tblFlat300.length = 300 := mkTable_length _ _ _
  have h := degenerate_denominators (fun x => x) tblFlat300 21 (by omega) (by omega)
  refine ⟨h.1, h.2.1, h.2.2 ?_⟩
  refine lossMeanO_zero_of_nonneg_delta (by omega) fun t ht1 ht2 => ?_
  refine ⟨0, ?_, le_refl 0⟩
  have hd : deltaO tblFlat300 t =
      some ((fun _ => (50 : ℚ)) t - (fun _ => (50 : ℚ)) (t - 1)) :=
    deltaO_mkTable _ _ (by omega) (by omega)
  rw [hd]
  norm_num

/-- a 25-row constant table with zero volume: both the Bollinger std
denominator and the 20-day volume mean are exactly zero there. -/
def tblFlatV0 : Table := mkTable 25 (fun _ => (50 : ℚ)) fun _ => 0

/-- counterexample to Claim C8 as stated: at row 21 of the constant
zero-volume table, the 20-day rolling std and the 20-day volume mean
are both zero, yet the Bollinger-position and volume-ratio columns are
the substituted finite value 0 (thanks to the `+ 1e-9` guard), not
NaN; only the RSI column becomes NaN. -/
theorem degenerate_denominators_cex :
    bbF (fun x => x) tblFlatV0 21 = some 0 ∧
    volRatioF tblFlatV0 21 = some 0 ∧
    rsiF tblFlatV0 21 = none := by
  have hlen : tblFlatV0.length = 25 := mkTable_length _ _ _
  have hc : ∀ t, t < tblFlatV0.length → cAt tblFlatV0 t = some 50 := by
    intro t ht
    rw [hlen] at ht
    exact cAt_mkTable _ _ ht
  have hv : ∀ t, t < 25 → vAt tblFlatV0 t = some 0 :=
    fun t ht => vAt_mkTable _ _ ht
  refine ⟨?_, ?_, rsiF_none_of_const hc (by omega)⟩
  · unfold bbF
    rw [shiftAt_of_le (by omega)]
    have hstd : rollStdO (fun x => x) (cAt tblFlatV0) 20 (21 - 1) = some 0 := by
      unfold rollStdO
      rw [windowO_const (by omega) fun t h1 h2 => hc t (by omega)]
      simp only [Option.map_some']
      rw [sampleVar_replicate]
    rw [hc (21 - 1) (by omega),
      rollMeanO_const (by norm_num) (by omega) (fun t h1 h2 => hc t (by omega)),
      hstd]
    show some ((50 - 50) / (2 * 0 + eps)) = some 0
    norm_num
  · unfold volRatioF
    rw [shiftAt_of_le (by omega)]
    rw [hv (21 - 1) (by omega),
      rollMeanO_const (by norm_num) (by omega) (fun t h1 h2 => hv t (by omega))]
    show some ((0 : ℚ) / (0 + eps)) = some 0
    norm_num

/-- Claim C10: the rollout step's rolling-std slot applies the
population standard deviation (`np.std`, divisor `N`) to the trailing
window, while the feature engine's `roll_std_5` applies the sample
standard deviation (pandas `.std()`, divisor `N - 1`); on any
non-constant trailing window the two disagree (under any square root
that is injective on nonnegatives, as the real one is), so the rollout
step does not reproduce the training-time feature. -/
theorem rollout_std_mismatch (q : ℚ → ℚ)
    (hq : ∀ a b : ℚ, 0 ≤ a → 0 ≤ b → q a = q b → a = b)
    (r : FeatureRow) (tbl : Table) (h5 : 5 ≤ tbl.length)
    (hnc : ¬ ∀ a ∈ lastN (closes tbl) 5, ∀ b ∈ lastN (closes tbl) 5, a = b) :
    rollStdF q tbl 5 tbl.length = some (q (sampleVar (lastN (closes tbl) 5))) ∧
    (nextRow q r (closes tbl)).roll_std_5 = q (popVar (lastN (closes tbl) 5)) ∧
    q (sampleVar (lastN (closes tbl) 5)) ≠ q (popVar (lastN (closes tbl) 5)) ∧
    some ((nextRow q r (closes tbl)).roll_std_5) ≠ rollStdF q tbl 5 tbl.length := by
  have hcl : (closes tbl).length = tbl.length := length_closes tbl
  have hl5 : (lastN (closes tbl) 5).length = 5 := lastN_length (by omega)
  have hfeat : rollStdF q tbl 5 tbl.length =
      some (q (sampleVar (lastN (closes tbl) 5))) := by
    unfold rollStdF
    rw [shiftAt_of_le (by omega)]
    unfold rollStdO
    rw [windowO_cAt_eq_lastN tbl 5 (by omega) (by omega)]
    rfl
  have hvne : sampleVar (lastN (closes tbl) 5) ≠ popVar (lastN (closes tbl) 5) :=
    sampleVar_ne_popVar (by omega) hnc
  have hqne : q (sampleVar (lastN (closes tbl) 5)) ≠
      q (popVar (lastN (closes tbl) 5)) := fun heq =>
    hvne (hq _ _ (sampleVar_nonneg (by omega)) (popVar_nonneg _) heq)
  refine ⟨hfeat, rfl, hqne, ?_⟩
  rw [hfeat]
  intro heq
  exact hqne (Option.some_injective ℚ heq).symm

/-- the history 0,1,2,3,4,5 on six business days: its trailing 5-window
is 1,2,3,4,5, which is not constant. -/
def tblC10 : Table := mkTable 6 (fun i => (i : ℚ)) fun _ => 7

/-- witness for C10 at the concrete table: the identity map stands in
for the (injective-on-nonnegatives) square root. -/
theorem rollout_std_mismatch_witness :
    rollStdF (fun x => x) tblC10 5 tblC10.length =
      some (sampleVar (lastN (closes tblC10) 5)) ∧
    (nextRow (fun x => x) default (closes tblC10)).roll_std_5 =
      popVar (lastN (closes tblC10) 5) ∧
    sampleVar (lastN (closes tblC10) 5) ≠ popVar (lastN (closes tblC10) 5) ∧
    some ((nextRow (fun x => x) default (closes tblC10)).roll_std_5) ≠
      rollStdF (fun x => x) tblC10 5 tblC10.length := by
  have hlen : tblC10.length = 6 := mkTable_length _ _ _
  have hc : ∀ t, t < 6 → cAt tblC10 t = some ((t : ℚ)) :=
    fun t ht => cAt_mkTable _ _ ht
  refine rollout_std_mismatch (fun x => x) (fun a b _ _ h => h) default tblC10
    (by omega) ?_
  intro hall
  have hcl : (closes tblC10).length = 6 := by
    rw [length_closes, hlen]
  have h4 : (4 : ℚ) ∈ lastN (closes tblC10) 5 := by
    have : cAt tblC10 4 = some 4 := by
      have := hc 4 (by omega)
      norm_num at this
      exact this
    unfold cAt at this
    unfold lastN
    rw [hcl]
    exact List.getElem?_mem
      (by rw [List.getElem?_drop, show 6 - 5 + 3 = 4 from rfl]; exact this)
  have h5m : (5 : ℚ) ∈ lastN (closes tblC10) 5 := by
    have : cAt tblC10 5 = some 5 := by
      have := hc 5 (by omega)
      norm_num at this
      exact this
    unfold cAt at this
    unfold lastN
    rw [hcl]
    exact List.getElem?_mem
      (by rw [List.getElem?_drop, show 6 - 5 + 4 = 5 from rfl]; exact this)
  have := hall 4 h4 5 h5m
  norm_num at this

/-! ## Claim C1: causality of the Feature Engine -/

lemma take_agree {t1 t2 : Table} {m : Nat} (h : t1.take m = t2.take m) :
    ∀ j, j < m → t1[j]? = t2[j]? := by
  intro j hj
  have e1 : (t1.take m)[j]? = t1[j]? := List.getElem?_take_of_lt hj
  have e2 : (t2.take m)[j]? = t2[j]? := List.getElem?_take_of_lt hj
  rw [← e1, ← e2, h]

lemma cAt_agree {t1 t2 : Table} {j : Nat} (h : t1[j]? = t2[j]?) :
    cAt t1 j = cAt t2 j := by
  unfold cAt closes
  rw [List.getElem?_map, List.getElem?_map, h]

lemma vAt_agree {t1 t2 : Table} {j : Nat} (h : t1[j]? = t2[j]?) :
    vAt t1 j = vAt t2 j := by
  unfold vAt volumes
  rw [List.getElem?_map, List.getElem?_map, h]

lemma dAt_agree {t1 t2 : Table} {j : Nat} (h : t1[j]? = t2[j]?) :
    dAt t1 j = dAt t2 j := by
  unfold dAt
  rw [h]

lemma mapM_congr {α : Type} {l : List Nat} {f g : Nat → Option α}
    (h : ∀ a ∈ l, f a = g a) : l.mapM f = l.mapM g := by
  induction l with
  | nil => rfl
  | cons a l ih =>
    rw [List.mapM_cons, List.mapM_cons, h a (List.mem_cons_self a l),
      ih fun b hb => h b (List.mem_cons_of_mem a hb)]

lemma windowO_congr {f g : Nat → Option ℚ} {w j : Nat}
    (h : ∀ t, t ≤ j → f t = g t) : windowO f w j = windowO g w j := by
  unfold windowO
  by_cases hcond : j + 1 < w
  · rw [if_pos hcond, if_pos hcond]
  · rw [if_neg hcond, if_neg hcond]
    refine mapM_congr fun a ha => h _ ?_
    have := List.mem_range.mp ha
    omega

lemma rollMeanO_congr {f g : Nat → Option ℚ} {w j : Nat}
    (h : ∀ t, t ≤ j → f t = g t) : rollMeanO f w j = rollMeanO g w j := by
  unfold rollMeanO
  rw [windowO_congr h]

lemma rollStdO_congr {q : ℚ → ℚ} {f g : Nat → Option ℚ} {w j : Nat}
    (h : ∀ t, t ≤ j → f t = g t) : rollStdO q f w j = rollStdO q g w j := by
  unfold rollStdO
  rw [windowO_congr h]

lemma emaAt_congr {a : ℚ} {f g : Nat → Option ℚ} {j : Nat}
    (h : ∀ t, t ≤ j → f t = g t) : emaAt a f j = emaAt a g j := by
  induction j with
  | zero => exact h 0 (le_refl 0)
  | succ j ih =>
    rw [emaAt, emaAt, ih fun t ht => h t (by omega), h (j + 1) (le_refl _)]

/-- every non-calendar feature column at row `i` is a function of the
table rows strictly before `i` alone. -/
lemma nonCal_congr (q : ℚ → ℚ) {t1 t2 : Table} {i : Nat}
    (h : ∀ j, j < i → t1[j]? = t2[j]?) :
    lagF t1 1 i = lagF t2 1 i ∧ lagF t1 2 i = lagF t2 2 i ∧
    lagF t1 3 i = lagF t2 3 i ∧ lagF t1 5 i = lagF t2 5 i ∧
    lagF t1 10 i = lagF t2 10 i ∧
    rollMeanF t1 5 i = rollMeanF t2 5 i ∧
    rollMeanF t1 10 i = rollMeanF t2 10 i ∧
    rollMeanF t1 20 i = rollMeanF t2 20 i ∧
    rollStdF q t1 5 i = rollStdF q t2 5 i ∧
    rollStdF q t1 20 i = rollStdF q t2 20 i ∧
    momF t1 5 i = momF t2 5 i ∧ momF t1 10 i = momF t2 10 i ∧
    momF t1 20 i = momF t2 20 i ∧
    volMa5F t1 i = volMa5F t2 i ∧ volRatioF t1 i = volRatioF t2 i ∧
    rsiF t1 i = rsiF t2 i ∧ macdHistF t1 i = macdHistF t2 i ∧
    macdLineF t1 i = macdLineF t2 i ∧ bbF q t1 i = bbF q t2 i := by
  have hc : ∀ j, j < i → cAt t1 j = cAt t2 j := fun j hj => cAt_agree (h j hj)
  have hv : ∀ j, j < i → vAt t1 j = vAt t2 j := fun j hj => vAt_agree (h j hj)
  have hsh : ∀ (f g : Nat → Option ℚ), (∀ j, j < i → f j = g j) →
      shiftAt f 1 i = shiftAt g 1 i := by
    intro f g hfg
    unfold shiftAt
    by_cases h0 : i < 1
    · rw [if_pos h0, if_pos h0]
    · rw [if_neg h0, if_neg h0]
      exact hfg _ (by omega)
  have hshk : ∀ (k j : Nat), j < i →
      shiftAt (cAt t1) k j = shiftAt (cAt t2) k j := by
    intro k j hj
    unfold shiftAt
    by_cases hjk : j < k
    · rw [if_pos hjk, if_pos hjk]
    · rw [if_neg hjk, if_neg hjk]
      exact hc _ (by omega)
  have hlag : ∀ k, 1 ≤ k → lagF t1 k i = lagF t2 k i := by
    intro k hk
    unfold lagF shiftAt
    by_cases hik : i < k
    · rw [if_pos hik, if_pos hik]
    · rw [if_neg hik, if_neg hik]
      exact hc _ (by omega)
  have hdel : ∀ j, j < i → deltaO t1 j = deltaO t2 j := by
    intro j hj
    unfold deltaO
    rw [hc j hj, hshk 1 j hj]
  have hgain : ∀ j, j < i → gainO t1 j = gainO t2 j := by
    intro j hj
    unfold gainO
    rw [hdel j hj]
  have hloss2 : ∀ j, j < i → lossO t1 j = lossO t2 j := by
    intro j hj
    unfold lossO
    rw [hdel j hj]
  have hema : ∀ (a : ℚ) (j : Nat), j < i →
      emaAt a (cAt t1) j = emaAt a (cAt t2) j :=
    fun a j hj => emaAt_congr fun t ht => hc t (by omega)
  have hline : ∀ j, j < i → macdLineO t1 j = macdLineO t2 j := by
    intro j hj
    unfold macdLineO
    rw [hema _ j hj, hema _ j hj]
  have hsig : ∀ j, j < i → macdSignalO t1 j = macdSignalO t2 j := by
    intro j hj
    unfold macdSignalO
    exact emaAt_congr fun t ht => hline t (by omega)
  have hhist2 : ∀ j, j < i → macdHistO t1 j = macdHistO t2 j := by
    intro j hj
    unfold macdHistO
    rw [hline j hj, hsig j hj]
  refine ⟨hlag 1 (by omega), hlag 2 (by omega), hlag 3 (by omega),
    hlag 5 (by omega), hlag 10 (by omega), ?_, ?_, ?_, ?_, ?_, ?_, ?_, ?_,
    ?_, ?_, ?_, ?_, ?_, ?_⟩
  · unfold rollMeanF
    exact hsh _ _ fun j hj => rollMeanO_congr fun t ht => hc t (by omega)
  · unfold rollMeanF
    exact hsh _ _ fun j hj => rollMeanO_congr fun t ht => hc t (by omega)
  · unfold rollMeanF
    exact hsh _ _ fun j hj => rollMeanO_congr fun t ht => hc t (by omega)
  · unfold rollStdF
    exact hsh _ _ fun j hj => rollStdO_congr fun t ht => hc t (by omega)
  · unfold rollStdF
    exact hsh _ _ fun j hj => rollStdO_congr fun t ht => hc t (by omega)
  · unfold momF
    refine hsh _ _ fun j hj => ?_
    rw [hc j hj, hshk 5 j hj]
  · unfold momF
    refine hsh _ _ fun j hj => ?_
    rw [hc j hj, hshk 10 j hj]
  · unfold momF
    refine hsh _ _ fun j hj => ?_
    rw [hc j hj, hshk 20 j hj]
  · unfold volMa5F
    exact hsh _ _ fun j hj => rollMeanO_congr fun t ht => hv t (by omega)
  · unfold volRatioF
    refine hsh _ _ fun j hj => ?_
    rw [hv j hj, rollMeanO_congr fun t ht => hv t (by omega)]
  · unfold rsiF
    refine hsh _ _ fun j hj => ?_
    show rsiO t1 14 j = rsiO t2 14 j
    unfold rsiO rsO gainMeanO lossMeanO
    rw [rollMeanO_congr fun t ht => hgain t (by omega),
      rollMeanO_congr fun t ht => hloss2 t (by omega)]
  · unfold macdHistF
    exact hsh _ _ hhist2
  · unfold macdLineF
    exact hsh _ _ hline
  · unfold bbF
    refine hsh _ _ fun j hj => ?_
    rw [hc j hj, rollMeanO_congr fun t ht => hc t (by omega),
      rollStdO_congr fun t ht => hc t (by omega)]

/-- Claim C1: causality of the Feature Engine.  (a) If two tables agree
on all rows up to and including `i`, the whole feature row at `i`
(including its definedness, hence also whether it is dropped) is
identical.  (b) If they agree on the rows strictly before `i` only,
all 19 non-calendar columns at `i` are already identical — every
non-calendar feature value at row `i` uses data through `i - 1` only.
(c) The two calendar columns depend only on the date at `i` itself. -/
theorem feature_causality (q : ℚ → ℚ) (t1 t2 : Table) (i : Nat) :
    (t1.take (i + 1) = t2.take (i + 1) →
      featRowAt q t1 i = featRowAt q t2 i) ∧
    (t1.take i = t2.take i →
      lagF t1 1 i = lagF t2 1 i ∧ lagF t1 2 i = lagF t2 2 i ∧
      lagF t1 3 i = lagF t2 3 i ∧ lagF t1 5 i = lagF t2 5 i ∧
      lagF t1 10 i = lagF t2 10 i ∧
      rollMeanF t1 5 i = rollMeanF t2 5 i ∧
      rollMeanF t1 10 i = rollMeanF t2 10 i ∧
      rollMeanF t1 20 i = rollMeanF t2 20 i ∧
      rollStdF q t1 5 i = rollStdF q t2 5 i ∧
      rollStdF q t1 20 i = rollStdF q t2 20 i ∧
      momF t1 5 i = momF t2 5 i ∧ momF t1 10 i = momF t2 10 i ∧
      momF t1 20 i = momF t2 20 i ∧
      volMa5F t1 i = volMa5F t2 i ∧ volRatioF t1 i = volRatioF t2 i ∧
      rsiF t1 i = rsiF t2 i ∧ macdHistF t1 i = macdHistF t2 i ∧
      macdLineF t1 i = macdLineF t2 i ∧ bbF q t1 i = bbF q t2 i) ∧
    (dAt t1 i = dAt t2 i →
      dowF t1 i = dowF t2 i ∧ monthF t1 i = monthF t2 i) := by
  have cal : dAt t1 i = dAt t2 i →
      dowF t1 i = dowF t2 i ∧ monthF t1 i = monthF t2 i := by
    intro hd
    unfold dowF monthF
    rw [hd]
    exact ⟨rfl, rfl⟩
  refine ⟨?_, fun htake => nonCal_congr q (take_agree htake), cal⟩
  intro htake
  have hall := take_agree htake
  have hlt : ∀ j, j < i → t1[j]? = t2[j]? := fun j hj => hall j (by omega)
  obtain ⟨e1, e2, e3, e4, e5, e6, e7, e8, e9, e10, e11, e12, e13, e14, e15,
    e16, e17, e18, e19⟩ := nonCal_congr q hlt
  obtain ⟨e20, e21⟩ := cal (dAt_agree (hall i (by omega)))
  exact featRowAt_congr e1 e2 e3 e4 e5 e6 e7 e8 e9 e10 e11 e12 e13 e14 e15
    e16 e17 e18 e19 e20 e21

def tblC1a : Table := mkTable 3 (fun i => (i : ℚ) + 10) fun _ => 7

def tblC1b : Table := mkTable 6 (fun i => (i : ℚ) + 10) fun _ => 7

lemma dAt_mkTable {n t : Nat} (f v : Nat → ℚ) (h : t < n) :
    dAt (mkTable n f v) t = some (bdayAt t) := by
  unfold dAt mkTable
  rw [List.getElem?_map, List.getElem?_range h]
  rfl

/-- witness for C1: a 3-row table and a 6-row extension agreeing on the
first three rows give the identical feature row at index 2; agreeing on
the first two rows already fixes the RSI column at index 2; and equal
dates fix the calendar columns. -/
theorem feature_causality_witness :
    tblC1a.take 3 = tblC1b.take 3 ∧
    featRowAt (fun x => x) tblC1a 2 = featRowAt (fun x => x) tblC1b 2 ∧
    rsiF tblC1a 2 = rsiF tblC1b 2 ∧
    dowF tblC1a 2 = dowF tblC1b 2 := by
  have htake3 : tblC1a.take 3 = tblC1b.take 3 := by
    unfold tblC1a tblC1b mkTable
    rw [← List.map_take, ← List.map_take, List.take_range, List.take_range]
    norm_num
  have htake2 : tblC1a.take 2 = tblC1b.take 2 := by
    unfold tblC1a tblC1b mkTable
    rw [← List.map_take, ← List.map_take, List.take_range, List.take_range]
    norm_num
  have hda : dAt tblC1a 2 = some (bdayAt 2) := dAt_mkTable _ _ (by omega)
  have hdb : dAt tblC1b 2 = some (bdayAt 2) := dAt_mkTable _ _ (by omega)
  have hd : dAt tblC1a 2 = dAt tblC1b 2 := by rw [hda, hdb]
  refine ⟨htake3, (feature_causality (fun x => x) tblC1a tblC1b 2).1 htake3,
    ?_, ((feature_causality (fun x => x) tblC1a tblC1b 2).2.2 hd).1⟩
  exact ((feature_causality (fun x => x) tblC1a tblC1b 2).2.1
    htake2).2.2.2.2.2.2.2.2.2.2.2.2.2.2.2.1

/-! ## Business-day helper lemmas -/

lemma isBday_nextBdayAtOrAfter (d : Nat) : isBday (nextBdayAtOrAfter d) := by
  unfold isBday nextBdayAtOrAfter
  split
  · omega
  · split <;> omega

lemma le_nextBdayAtOrAfter (d : Nat) : d ≤ nextBdayAtOrAfter d := by
  unfold nextBdayAtOrAfter
  split
  · omega
  · split <;> omega

lemma nextBdayAtOrAfter_le {d e : Nat} (he : isBday e) (hde : d ≤ e) :
    nextBdayAtOrAfter d ≤ e := by
  unfold isBday at he
  unfold nextBdayAtOrAfter
  split
  · omega
  · split <;> omega

lemma bdateRange_length (s k : Nat) : (bdateRange s k).length = k := by
  induction k generalizing s with
  | zero => rfl
  | succ k ih => simp [bdateRange, ih]

lemma bdateRange_isBday (s k : Nat) : ∀ d ∈ bdateRange s k, isBday d := by
  induction k generalizing s with
  | zero => simp [bdateRange]
  | succ k ih =>
    intro d hd
    simp only [bdateRange, List.mem_cons] at hd
    rcases hd with rfl | hd
    · exact isBday_nextBdayAtOrAfter s
    · exact ih _ d hd

lemma bdateRange_lb (s k : Nat) : ∀ d ∈ bdateRange s k, s ≤ d := by
  induction k generalizing s with
  | zero => simp [bdateRange]
  | succ k ih =>
    intro d hd
    simp only [bdateRange, List.mem_cons] at hd
    have hs := le_nextBdayAtOrAfter s
    rcases hd with rfl | hd
    · exact hs
    · have h1 := ih _ d hd
      omega

lemma bdateRange_chain (s k : Nat) : (bdateRange s k).Chain' (fun a b => a < b) := by
  induction k generalizing s with
  | zero => simp [bdateRange]
  | succ k ih =>
    simp only [bdateRange]
    refine List.chain'_cons'.mpr ⟨?_, ih _⟩
    intro y hy
    have hmem : y ∈ bdateRange (nextBdayAtOrAfter s + 1) k :=
      List.mem_of_mem_head? hy
    have := bdateRange_lb (nextBdayAtOrAfter s + 1) k y hmem
    omega

/-! ## Claim theorems: model selection, future dates, cross-validation -/

/-- Claim C7: model selection is a closed enumeration: the Ridge
selector (surfaced as `"Linear Regression"`) maps to the regularized
linear regressor, `"Gradient Boosting"` to the 300-stage / lr 0.05 /
depth 4 / seeded boosting regressor, `"Random Forest"` to the 300-tree
/ depth 10 / min-3-leaf / seeded forest, and every other selector
string falls back to the Random Forest configuration without raising
(`pickModel` is total). -/
theorem pickModel_spec :
    pickModel "Random Forest" = ModelSpec.randomForest 300 10 3 42 ∧
    pickModel "Gradient Boosting" = ModelSpec.gradientBoosting 300 (5 / 100) 4 42 ∧
    pickModel "Linear Regression" = ModelSpec.ridge 1 ∧
    ∀ s : String, s ≠ "Linear Regression" → s ≠ "Gradient Boosting" →
      pickModel s = ModelSpec.randomForest 300 10 3 42 := by
  refine ⟨by simp [pickModel], by simp [pickModel], by simp [pickModel], ?_⟩
  intro s h1 h2
  simp [pickModel, h1, h2]

/-- witness for C7: an out-of-enumeration selector (even the literal
string `"Ridge"`) falls back to the Random Forest configuration. -/
theorem pickModel_spec_witness :
    pickModel "Ridge" = ModelSpec.randomForest 300 10 3 42 :=
  pickModel_spec.2.2.2 "Ridge" (by simp) (by simp)

/-- Claim C6: for a last historical date `L` that is a business day and
any positive horizon `h`, the generated future dates have length
exactly `h`, are strictly increasing, all business days, and start at
the next business day strictly after `L`; and `train_and_predict`
returns exactly `bdateRange (L+1) h` as `future_dates`. -/
theorem future_dates_spec (L h : Nat) (hL : isBday L) (hh : 0 < h) :
    (bdateRange (L + 1) h).length = h ∧
    (bdateRange (L + 1) h).Chain' (fun a b => a < b) ∧
    (∀ d ∈ bdateRange (L + 1) h, isBday d) ∧
    (bdateRange (L + 1) h).head? = some (nextBdayAtOrAfter (L + 1)) ∧
    isBday (nextBdayAtOrAfter (L + 1)) ∧
    L < nextBdayAtOrAfter (L + 1) ∧
    (∀ e, isBday e → L < e → nextBdayAtOrAfter (L + 1) ≤ e) ∧
    (∀ (q : ℚ → ℚ) (F : Trainer) (tbl : Table) (name : String),
      (trainAndPredict q F tbl name h).map (fun r => r.future_dates) =
      (trainAndPredict q F tbl name h).map
        (fun _ => bdateRange ((tbl.getLastD default).date + 1) h)) := by
  obtain ⟨k, rfl⟩ : ∃ k, h = k + 1 := ⟨h - 1, by omega⟩
  refine ⟨bdateRange_length _ _, bdateRange_chain _ _, bdateRange_isBday _ _,
    rfl, isBday_nextBdayAtOrAfter _, ?_, ?_, ?_⟩
  · have := le_nextBdayAtOrAfter (L + 1)
    omega
  · intro e he hLe
    exact nextBdayAtOrAfter_le he (by omega)
  · intro q F tbl name
    by_cases h1 : (keptX q tbl).length = 0 <;>
      by_cases h2 : (scaledX q tbl).length < 6 <;>
      simp [trainAndPredict, h1, h2, Except.map]

/-- witness for C6 at the concrete Monday 1970-01-05 (day 4), horizon 3. -/
theorem future_dates_spec_witness :
    (bdateRange 5 3).length = 3 ∧
    (bdateRange 5 3).Chain' (fun a b => a < b) ∧
    (∀ d ∈ bdateRange 5 3, isBday d) ∧
    (bdateRange 5 3).head? = some (nextBdayAtOrAfter 5) ∧
    isBday (nextBdayAtOrAfter 5) ∧
    4 < nextBdayAtOrAfter 5 ∧
    (∀ e, isBday e → 4 < e → nextBdayAtOrAfter 5 ≤ e) ∧
    (∀ (q : ℚ → ℚ) (F : Trainer) (tbl : Table) (name : String),
      (trainAndPredict q F tbl name 3).map (fun r => r.future_dates) =
      (trainAndPredict q F tbl name 3).map
        (fun _ => bdateRange ((tbl.getLastD default).date + 1) 3)) :=
  future_dates_spec 4 3 (by decide) (by decide)

/-- Claim C5: `TimeSeriesSplit(5)` yields exactly 5 sequential
expanding-window folds — each training block is `range s` (all rows
before the validation segment) and every training index is strictly
below every validation index — and the reported `cv_rmse` is the
arithmetic mean (sum over 5) of the 5 per-fold RMSEs computed from
inverse-scaled validation predictions against unscaled targets. -/
theorem cv_spec :
    (∀ n : Nat, (tscvFolds 5 n).length = 5) ∧
    (∀ n : Nat, 6 ≤ n → ∀ fold ∈ tscvFolds 5 n,
      fold.1 ≠ [] ∧ fold.2 ≠ [] ∧
      (∃ s, fold.1 = List.range s ∧ ∀ b ∈ fold.2, s ≤ b) ∧
      ∀ a ∈ fold.1, ∀ b ∈ fold.2, a < b) ∧
    (∀ (q : ℚ → ℚ) (F : Trainer) (Xs : List (List ℚ)) (ys yFull : List ℚ)
      (invY : ℚ → ℚ),
      cvRmseOf q F Xs ys yFull invY =
        ((tscvFolds 5 Xs.length).map (foldErr q F Xs ys yFull invY)).sum / 5) ∧
    (∀ (q : ℚ → ℚ) (F : Trainer) (tbl : Table) (name : String) (days : Nat),
      (trainAndPredict q F tbl name days).map (fun r => r.cv_rmse) =
      (trainAndPredict q F tbl name days).map (fun _ =>
        cvRmseOf q F (scaledX q tbl) (scaledY q tbl) (keptY q tbl) (invYOf q tbl))) := by
  refine ⟨?_, ?_, ?_, ?_⟩
  · intro n; simp [tscvFolds]
  · intro n hn fold hf
    simp only [tscvFolds, List.mem_map, List.mem_range,
      show (5 + 1 : Nat) = 6 from rfl] at hf
    obtain ⟨i, hi, rfl⟩ := hf
    have hts : 1 ≤ n / 6 := (Nat.one_le_div_iff (by norm_num)).mpr hn
    have h6 : n / 6 * 6 ≤ n := Nat.div_mul_le_self n 6
    have hmul : (5 - i) * (n / 6) ≤ 5 * (n / 6) :=
      Nat.mul_le_mul_right _ (by omega)
    refine ⟨?_, ?_, ⟨n - (5 - i) * (n / 6), rfl, ?_⟩, ?_⟩
    · simp only [ne_eq, List.range_eq_nil]
      omega
    · simp only [ne_eq, List.map_eq_nil_iff, List.range_eq_nil]
      omega
    · intro b hb
      simp only [List.mem_map, List.mem_range] at hb
      obtain ⟨t, _, rfl⟩ := hb
      omega
    · intro a ha b hb
      simp only [List.mem_range] at ha
      simp only [List.mem_map, List.mem_range] at hb
      obtain ⟨t, _, rfl⟩ := hb
      omega
  · intro q F Xs ys yFull invY
    simp [cvRmseOf, cvErrors, tscvFolds]
  · intro q F tbl name days
    by_cases h1 : (keptX q tbl).length = 0 <;>
      by_cases h2 : (scaledX q tbl).length < 6 <;>
      simp [trainAndPredict, h1, h2, Except.map]

/-- witness for C5 at `n = 12` samples. -/
theorem cv_spec_witness :
    (tscvFolds 5 12).length = 5 ∧
    ∀ fold ∈ tscvFolds 5 12,
      fold.1 ≠ [] ∧ fold.2 ≠ [] ∧
      (∃ s, fold.1 = List.range s ∧ ∀ b ∈ fold.2, s ≤ b) ∧
      ∀ a ∈ fold.1, ∀ b ∈ fold.2, a < b :=
  ⟨cv_spec.1 12, cv_spec.2.1 12 (by decide)⟩

end MarketML
